import Mathlib

/-! khaiii `Morph`: a morpheme token and its byte-position resolution

A shallow embedding of `src/main/cpp/khaiii/Morph.cpp`.

Conventions of the embedding

* A call either returns a value or stops abnormally; it is a function into
  `Except Fault _`.  `Fault.assertion` is a failed `assert` (the checks of
  `<cassert>` are taken to be compiled in), `Fault.undefined` is an operation
  that has no defined outcome and yields no value: a memory access that faults,
  a null pointer handed to a string routine.
* An `int` is a 32-bit two's-complement integer: a value between `INT_MIN` and
  `INT_MAX`, and the result of `+` and `-` on `int`s, as of the narrowing of a
  pointer difference to `int`, is brought back into that range by `wrap_int`.
* The subscript of a `std::vector` is not checked.  Inside the vector it gives the
  element; outside, the read finds what happens to lie there, or faults.  What an
  out-of-range read finds is the parameter `outside` of `organize`.
* A pointer that is only compared and subtracted (`wbegin`, `wraw`, `next`) is
  its address, counted in elements, with `0` the null pointer.  A pointer to a
  null-terminated string that is read (`wlex`, `tag`, `lex`) is the string it
  points to, `none` being the null pointer.
* `POS_TAG_SIZE` is declared in the header `khaiii/Morph.hpp`, not in `Morph.cpp`;
  it is a parameter of every definition that depends on it.  The declaration
  `_TAG_SET[POS_TAG_SIZE] = { ... }` is well formed only when `POS_TAG_SIZE` is at
  least the number of initialisers, 46.
* Text is a `String`: a wide string is the sequence of its characters before the
  terminator, and the narrow strings of the file (the mnemonics) are ASCII, which
  widening leaves as it is.
-/

namespace khaiii

/-! ## Abnormal termination, pointers, subscripts -/

/-- The two ways a call can stop without a result. -/
inductive Fault where
  /-- An `assert` did not hold. -/
  | assertion
  /-- An operation without defined behaviour was reached. -/
  | undefined
deriving DecidableEq, Repr

deriving instance DecidableEq for Except

/-- An address, in elements; used for the pointers that are never read through. -/
abbrev Ptr := Nat

/-- The null pointer. -/
def nullptr : Ptr := 0

/-- The `assert` of `<cassert>`. -/
def cassert (c : Bool) : Except Fault Unit :=
  if c then .ok () else .error .assertion

/-- The subscript `v[i]` of a built-in array for an `int` index.  `pos_str`, its one
user, asserts the range of the index first; an index outside the array has no value. -/
def subscript {α : Type} (v : List α) (i : Int) : Except Fault α :=
  if 0 ≤ i then
    match v[i.toNat]? with
    | some x => .ok x
    | none => .error .undefined
  else .error .undefined

/-- The least value of an `int`. -/
def INT_MIN : Int := -2147483648

/-- The greatest value of an `int`. -/
def INT_MAX : Int := 2147483647

/-- The `int` that a result of `int` arithmetic is stored as: the value reduced modulo
`2^32` into the range from `INT_MIN` to `INT_MAX`. -/
def wrap_int (x : Int) : Int :=
  (x + 2147483648) % 4294967296 - 2147483648

/-- What lies outside the vectors: for a vector and an index that is not one of its
positions, the value an unchecked read finds there, or `none` when the access faults.
The program has no hold on it. -/
abbrev Outside := List Int → Int → Option Int

/-- The subscript `v[i]` of a `std::vector<int>` for an `int` index; `operator[]` does
not check the index.  Inside the vector it is the element, outside it is what lies
there. -/
def vector_subscript (outside : Outside) (v : List Int) (i : Int) : Except Fault Int :=
  if 0 ≤ i then
    match v[i.toNat]? with
    | some x => .ok x
    | none =>
      match outside v i with
      | some g => .ok g
      | none => .error .undefined
  else
    match outside v i with
    | some g => .ok g
    | none => .error .undefined

/-! ## The tag table -/

/-- The initialisers of `_TAG_SET`, in the order of the source. -/
def TAG_SET_INIT : List String :=
  [ "EC",  "EF",  "EP", "ETM", "ETN",  "IC",  "JC", "JKB", "JKC", "JKG",
   "JKO", "JKQ", "JKS", "JKV",  "JX", "MAG", "MAJ",  "MM", "NNB", "NNG",
   "NNP",  "NP",  "NR",  "SE",  "SF",  "SH",  "SL",  "SN",  "SO",  "SP",
    "SS",  "SW", "SWK",  "VA", "VCN", "VCP",  "VV",  "VX", "XPN",  "XR",
   "XSA", "XSN", "XSV",  "ZN",  "ZV",  "ZZ" ]

/-- The array `static const char* _TAG_SET[POS_TAG_SIZE] = { ... }`: the listed
strings first, and null pointers in the slots the initialiser list does not reach.
With a bound below the number of initialisers the declaration does not compile; the
statements that depend on the contents of the table assume `46 ≤ POS_TAG_SIZE`. -/
def _TAG_SET (POS_TAG_SIZE : Nat) : List (Option String) :=
  TAG_SET_INIT.map some ++ List.replicate (POS_TAG_SIZE - TAG_SET_INIT.length) none

/-- The function `Morph::pos_str`. -/
def pos_str (POS_TAG_SIZE : Nat) (num : Int) : Except Fault (Option String) := do
  cassert (decide (0 < num ∧ num ≤ (POS_TAG_SIZE : Int)))
  subscript (_TAG_SET POS_TAG_SIZE) (num - 1)

/-! ## Text output -/

/-- The bytes of one character in UTF-8. -/
def utf8_bytes (c : Nat) : List Nat :=
  if c < 0x80 then [c]
  else if c < 0x800 then [0xC0 + c / 0x40, 0x80 + c % 0x40]
  else if c < 0x10000 then [0xE0 + c / 0x1000, 0x80 + c / 0x40 % 0x40, 0x80 + c % 0x40]
  else [0xF0 + c / 0x40000, 0x80 + c / 0x1000 % 0x40, 0x80 + c / 0x40 % 0x40, 0x80 + c % 0x40]

/-- Modelled from the spec: `wstr_to_utf8` of `khaiii/util.hpp`, which is not among
the sources.  It renders a wide string in the encoded output form, UTF-8; a null
pointer has no string to render. -/
def wstr_to_utf8 (wstr : Option String) : Except Fault (List Nat) :=
  match wstr with
  | some w => .ok (w.toList.flatMap (fun c => utf8_bytes c.toNat))
  | none => .error .undefined

/-- The insertion `wss << n` of an `int` into a wide stream, in the classic locale:
the decimal digits of the magnitude, after a `-` when the value is negative. -/
def put_int (n : Int) : String :=
  if n < 0 then String.mk ('-' :: Nat.toDigits 10 n.natAbs)
  else String.mk (Nat.toDigits 10 n.natAbs)

/-! ## The token -/

/-- The data members of `Morph` that `Morph.cpp` reads or writes. -/
structure Morph where
  /-- `const wchar_t* wlex`: the surface text. -/
  wlex : Option String
  /-- `const wchar_t* wbegin`: where the token starts in the decoded buffer. -/
  wbegin : Ptr
  /-- `int wlength`: the number of decoded characters. -/
  wlength : Int
  /-- `std::string _lex`: the encoded copy of the surface text. -/
  _lex : List Nat
  /-- `const char* lex`: points into `_lex`. -/
  lex : Option (List Nat)
  /-- `const char* tag`: the mnemonic. -/
  tag : Option String
  /-- `int begin`: the byte offset of the first character. -/
  begin : Int
  /-- `int length`: the byte span. -/
  length : Int
  /-- `const Morph* next`: the following token of the chain. -/
  next : Ptr
deriving DecidableEq, Repr

/-- The constructor `Morph::Morph`.  The member initialisers run before the body,
so `wstr_to_utf8(wlex)` is evaluated before `assert(wlex)`. -/
def Morph.ctor (POS_TAG_SIZE : Nat) (wlex : Option String) (tag : Int) (wbegin : Ptr)
    (wlength : Int) : Except Fault Morph := do
  let _lex ← wstr_to_utf8 wlex
  cassert wlex.isSome
  let lex := some _lex
  let tag ← pos_str POS_TAG_SIZE tag
  pure { wlex := wlex, wbegin := wbegin, wlength := wlength, _lex := _lex, lex := lex,
         tag := tag, begin := -1, length := -1, next := nullptr }

/-- The local `int begin_idx = wbegin - wraw` of `organize`: the pointer difference,
narrowed to `int`. -/
def Morph.begin_idx (self : Morph) (wraw : Ptr) : Int :=
  wrap_int ((self.wbegin : Int) - (wraw : Int))

/-- The local `int end_idx = begin_idx + wlength - 1` of `organize`. -/
def Morph.end_idx (self : Morph) (wraw : Ptr) : Int :=
  wrap_int (wrap_int (self.begin_idx wraw + self.wlength) - 1)

/-- The method `Morph::organize`. -/
def Morph.organize (outside : Outside) (self : Morph) (wraw : Ptr) (wbegins wends : List Int) :
    Except Fault Morph := do
  cassert (decide (wraw ≠ nullptr))
  let begin_idx : Int := self.begin_idx wraw
  let end_idx : Int := self.end_idx wraw
  cassert (decide (wrap_int (end_idx - begin_idx) ≥ 0))
  let begin ← vector_subscript outside wbegins begin_idx
  let last ← vector_subscript outside wends end_idx
  pure { self with begin := begin, length := wrap_int (last - begin) }

/-- The method `Morph::wstr`: `wss << wlex << L"/" << tag << L":" << begin << L"," << length`.
Inserting a null string pointer is not defined. -/
def Morph.wstr (self : Morph) : Except Fault String :=
  match self.wlex, self.tag with
  | some wlex, some tag =>
    .ok (wlex ++ "/" ++ tag ++ ":" ++ put_int self.begin ++ "," ++ put_int self.length)
  | _, _ => .error .undefined

/-- The method `Morph::str`. -/
def Morph.str (self : Morph) : Except Fault (List Nat) := do
  let w ← self.wstr
  wstr_to_utf8 (some w)

/-- The calls this file offers on a token. -/
inductive Call where
  /-- The call `Morph::pos_str(num)`. -/
  | pos_str (num : Int)
  /-- The call `organize(wraw, wbegins, wends)`. -/
  | organize (wraw : Ptr) (wbegins wends : List Int)
  /-- The call `str()`. -/
  | str
  /-- The call `wstr()`. -/
  | wstr
deriving DecidableEq, Repr

/-- The token after a call that returned.  `organize` assigns `begin` and `length`.
`pos_str` is a static function that reads the tag table only; the bodies of `str` and
`wstr` write to a local stream and assign no data member: the object is as before. -/
def Morph.after (POS_TAG_SIZE : Nat) (outside : Outside) (self : Morph) :
    Call → Except Fault Morph
  | .pos_str num => do
    let _ ← pos_str POS_TAG_SIZE num
    pure self
  | .organize wraw wbegins wends => self.organize outside wraw wbegins wends
  | .str => do
    let _ ← self.str
    pure self
  | .wstr => do
    let _ ← self.wstr
    pure self

/-- The numeral format of the specification, "base 10 with no padding, no thousands
separators, no leading +": `s` is a `-` exactly when `z` is negative, followed by the
decimal digits of the magnitude of `z`, most significant first, each written as the
character `'0' + d`, the first of them `0` only for zero itself. -/
def PlainDecimal (z : Int) (s : String) : Prop :=
  ∃ ds : List Nat, ds ≠ [] ∧ (∀ d ∈ ds, d < 10) ∧ (ds.head? = some 0 → ds = [0])
    ∧ Nat.ofDigits 10 ds.reverse = z.natAbs
    ∧ s = String.mk ((if z < 0 then ['-'] else []) ++ ds.map (fun d => Char.ofNat (48 + d)))

/-- The input contract of the specification for the two tables: `begins[i]` and
`ends[i]` are the byte offsets at which character `i` starts and ends in the encoded
stream.  Such offsets are counted from 0 and held in `int`s, a character does not end
before it starts, and the offsets of each table are non-decreasing.  That the tables
are long enough is said where an index is used. -/
def InputContract (begins ends : List Int) : Prop :=
  (∀ x ∈ begins, 0 ≤ x ∧ x ≤ INT_MAX) ∧ (∀ x ∈ ends, 0 ≤ x ∧ x ≤ INT_MAX)
    ∧ (∀ p ∈ List.zip begins ends, p.1 ≤ p.2)
    ∧ begins.Pairwise (· ≤ ·) ∧ ends.Pairwise (· ≤ ·)

/-! ## Basic facts about the building blocks -/

theorem cassert_true : cassert true = .ok () := rfl

theorem cassert_false : cassert false = .error .assertion := rfl

theorem cassert_of (c : Bool) (h : c = true) : cassert c = .ok () := by
  subst h; rfl

theorem cassert_eq_ok_iff (c : Bool) : cassert c = .ok () ↔ c = true := by
  cases c <;> simp [cassert]

theorem subscript_eq_ok_iff {α : Type} (v : List α) (i : Int) (x : α) :
    subscript v i = .ok x ↔ 0 ≤ i ∧ v[i.toNat]? = some x := by
  unfold subscript
  by_cases hi : 0 ≤ i
  · cases hv : v[i.toNat]? <;> simp [hi]
  · simp [hi]

theorem TAG_SET_INIT_length : TAG_SET_INIT.length = 46 := by decide

theorem _TAG_SET_length (POS_TAG_SIZE : Nat) :
    (_TAG_SET POS_TAG_SIZE).length = max POS_TAG_SIZE 46 := by
  simp [_TAG_SET, TAG_SET_INIT_length]; omega

theorem _TAG_SET_getElem?_init (POS_TAG_SIZE i : Nat) (h : i < 46) :
    (_TAG_SET POS_TAG_SIZE)[i]? = (TAG_SET_INIT[i]?).map some := by
  unfold _TAG_SET
  rw [List.getElem?_append_left (by simpa [TAG_SET_INIT_length] using h)]
  simp

/-- The checks of `pos_str` passed: the subscript is inside the array. -/
theorem pos_str_of_range (POS_TAG_SIZE : Nat) (num : Int) (h0 : 0 < num)
    (h1 : num ≤ (POS_TAG_SIZE : Int)) :
    ∃ r, (_TAG_SET POS_TAG_SIZE)[(num - 1).toNat]? = some r ∧ pos_str POS_TAG_SIZE num = .ok r := by
  have hlt : (num - 1).toNat < (_TAG_SET POS_TAG_SIZE).length := by
    rw [_TAG_SET_length]; omega
  refine ⟨(_TAG_SET POS_TAG_SIZE)[(num - 1).toNat], List.getElem?_eq_getElem hlt, ?_⟩
  unfold pos_str
  rw [cassert_of _ (by simp [h0, h1])]
  show subscript _ _ = _
  rw [(subscript_eq_ok_iff _ _ _).2 ⟨by omega, List.getElem?_eq_getElem hlt⟩]

/-- The check of `pos_str` failed. -/
theorem pos_str_out_of_range (POS_TAG_SIZE : Nat) (num : Int)
    (h : num ≤ 0 ∨ (POS_TAG_SIZE : Int) < num) :
    pos_str POS_TAG_SIZE num = .error .assertion := by
  unfold pos_str
  have hc : decide (0 < num ∧ num ≤ (POS_TAG_SIZE : Int)) = false := by
    simp only [decide_eq_false_iff_not]; omega
  rw [hc]; rfl

theorem TAG_SET_INIT_nodup : TAG_SET_INIT.Nodup := by decide

/-- An ordinal that has an initialiser: `pos_str` returns that initialiser. -/
theorem pos_str_init (POS_TAG_SIZE : Nat) (num : Int) (hP : 46 ≤ POS_TAG_SIZE)
    (h0 : 0 < num) (h1 : num ≤ 46) :
    ∃ t, TAG_SET_INIT[(num - 1).toNat]? = some t
      ∧ (_TAG_SET POS_TAG_SIZE)[(num - 1).toNat]? = some (some t)
      ∧ pos_str POS_TAG_SIZE num = .ok (some t) := by
  have hlt : (num - 1).toNat < TAG_SET_INIT.length := by
    rw [TAG_SET_INIT_length]; omega
  obtain ⟨r, hr, hpos⟩ := pos_str_of_range POS_TAG_SIZE num h0 (by omega)
  have hidx := _TAG_SET_getElem?_init POS_TAG_SIZE (num - 1).toNat (by omega)
  rw [List.getElem?_eq_getElem hlt, Option.map_some'] at hidx
  refine ⟨TAG_SET_INIT[(num - 1).toNat], List.getElem?_eq_getElem hlt, hidx, ?_⟩
  rw [hidx] at hr
  rw [hpos, ← Option.some.inj hr]

/-- An ordinal past the initialisers, inside the array: `pos_str` returns a null pointer. -/
theorem pos_str_padding (POS_TAG_SIZE : Nat) (num : Int) (h0 : 46 < num)
    (h1 : num ≤ (POS_TAG_SIZE : Int)) :
    pos_str POS_TAG_SIZE num = .ok none := by
  obtain ⟨r, hr, hpos⟩ := pos_str_of_range POS_TAG_SIZE num (by omega) h1
  rw [hpos]
  unfold _TAG_SET at hr
  rw [List.getElem?_append_right (by simp [TAG_SET_INIT_length]; omega)] at hr
  have hmem : r ∈ List.replicate (POS_TAG_SIZE - TAG_SET_INIT.length) none :=
    (List.mem_iff_getElem?.2 ⟨_, hr⟩)
  rw [List.eq_of_mem_replicate hmem]

/-- What the constructor returns once its checks have passed. -/
theorem ctor_of_pos_str (POS_TAG_SIZE : Nat) (w : String) (tag : Int) (wbegin : Ptr)
    (wlength : Int) (r : Option String) (h : pos_str POS_TAG_SIZE tag = .ok r) :
    Morph.ctor POS_TAG_SIZE (some w) tag wbegin wlength
      = .ok { wlex := some w, wbegin := wbegin, wlength := wlength,
              _lex := w.toList.flatMap (fun c => utf8_bytes c.toNat),
              lex := some (w.toList.flatMap (fun c => utf8_bytes c.toNat)),
              tag := r, begin := -1, length := -1, next := nullptr } := by
  unfold Morph.ctor
  simp only [wstr_to_utf8, Option.isSome_some, cassert_true, h]
  rfl

/-- A null surface pointer never yields a token. -/
theorem ctor_null (POS_TAG_SIZE : Nat) (tag : Int) (wbegin : Ptr) (wlength : Int) :
    Morph.ctor POS_TAG_SIZE none tag wbegin wlength = .error .undefined := rfl

/-- A tag outside the checked range never yields a token. -/
theorem ctor_bad_tag (POS_TAG_SIZE : Nat) (w : String) (tag : Int) (wbegin : Ptr)
    (wlength : Int) (h : tag ≤ 0 ∨ (POS_TAG_SIZE : Int) < tag) :
    Morph.ctor POS_TAG_SIZE (some w) tag wbegin wlength = .error .assertion := by
  unfold Morph.ctor
  simp only [wstr_to_utf8, Option.isSome_some, cassert_true, pos_str_out_of_range _ _ h]
  rfl

theorem INT_MIN_eq : INT_MIN = -2147483648 := rfl

theorem INT_MAX_eq : INT_MAX = 2147483647 := rfl

/-- A value that fits an `int` is stored as it is. -/
theorem wrap_int_of_fits (x : Int) (h0 : INT_MIN ≤ x) (h1 : x ≤ INT_MAX) : wrap_int x = x := by
  rw [INT_MIN_eq] at h0
  rw [INT_MAX_eq] at h1
  unfold wrap_int
  omega

/-- What is stored is an `int`, congruent to the exact result modulo `2^32`. -/
theorem wrap_int_spec (x : Int) :
    INT_MIN ≤ wrap_int x ∧ wrap_int x ≤ INT_MAX ∧ ∃ k : Int, wrap_int x = x + 4294967296 * k := by
  rw [INT_MIN_eq, INT_MAX_eq]
  unfold wrap_int
  refine ⟨by omega, by omega, -((x + 2147483648) / 4294967296), ?_⟩
  omega

theorem vector_subscript_natCast (outside : Outside) (v : List Int) (i : Nat) (x : Int)
    (h : v[i]? = some x) : vector_subscript outside v (i : Int) = .ok x := by
  simp [vector_subscript, h]

/-- Outside the vector the subscript gives what lies there. -/
theorem vector_subscript_outside (outside : Outside) (v : List Int) (i : Int)
    (h : i < 0 ∨ (v.length : Int) ≤ i) :
    vector_subscript outside v i
      = match outside v i with
        | some g => .ok g
        | none => .error .undefined := by
  unfold vector_subscript
  by_cases hi : 0 ≤ i
  · have hlen : v.length ≤ i.toNat := by omega
    simp only [hi, if_true, List.getElem?_eq_none hlen]
  · simp only [hi, if_false]

theorem vector_subscript_ne_assertion (outside : Outside) (v : List Int) (i : Int) :
    vector_subscript outside v i ≠ .error .assertion := by
  unfold vector_subscript
  by_cases hi : 0 ≤ i
  · simp only [hi, if_true]
    cases v[i.toNat]? with
    | some x => simp
    | none => cases outside v i <;> simp
  · simp only [hi, if_false]
    cases outside v i <;> simp

/-- The second assertion of `organize` compares `wlength - 1`, as an `int`, with 0. -/
theorem organize_check (m : Morph) (wraw : Ptr) :
    wrap_int (m.end_idx wraw - m.begin_idx wraw) = wrap_int (m.wlength - 1) := by
  unfold Morph.end_idx
  generalize m.begin_idx wraw = i
  unfold wrap_int
  omega

/-- The steps of `organize`, one after the other. -/
theorem organize_steps (outside : Outside) (m : Morph) (wraw : Ptr) (begins ends : List Int) :
    m.organize outside wraw begins ends
      = if wraw = nullptr then .error .assertion
        else if wrap_int (m.wlength - 1) < 0 then .error .assertion
        else
          match vector_subscript outside begins (m.begin_idx wraw) with
          | .error f => .error f
          | .ok b =>
            match vector_subscript outside ends (m.end_idx wraw) with
            | .error f => .error f
            | .ok e => .ok { m with begin := b, length := wrap_int (e - b) } := by
  unfold Morph.organize
  by_cases hraw : wraw = nullptr
  · subst hraw
    rw [if_pos rfl]
    rfl
  · rw [cassert_of _ (by simpa using hraw)]
    show (do cassert (decide (wrap_int (m.end_idx wraw - m.begin_idx wraw) ≥ 0)); _) = _
    rw [organize_check]
    simp only [hraw, if_false]
    by_cases hl : wrap_int (m.wlength - 1) < 0
    · have hc : decide (wrap_int (m.wlength - 1) ≥ 0) = false := by
        simp only [decide_eq_false_iff_not]; omega
      simp only [hl, if_true]
      show (do cassert (decide _); _) = _
      rw [hc]
      rfl
    · have hc : decide (wrap_int (m.wlength - 1) ≥ 0) = true := by
        simp only [decide_eq_true_eq]; omega
      simp only [hl, if_false]
      show (do cassert (decide _); _) = _
      rw [hc]
      show (do let x ← vector_subscript outside begins _; _) = _
      cases vector_subscript outside begins (m.begin_idx wraw) with
      | error f => rfl
      | ok b =>
        show (do let y ← vector_subscript outside ends _; _) = _
        cases vector_subscript outside ends (m.end_idx wraw) with
        | error f => rfl
        | ok e => rfl

/-- The assertions of `organize` fail exactly for a null buffer and for a `wlength - 1`
that is negative as an `int`. -/
theorem organize_assertion_iff (outside : Outside) (m : Morph) (wraw : Ptr)
    (begins ends : List Int) :
    m.organize outside wraw begins ends = .error .assertion
      ↔ (wraw = nullptr ∨ wrap_int (m.wlength - 1) < 0) := by
  rw [organize_steps]
  by_cases hraw : wraw = nullptr
  · simp [hraw]
  · by_cases hl : wrap_int (m.wlength - 1) < 0
    · simp [hraw, hl]
    · simp only [hraw, hl, if_false, or_self, iff_false]
      have hb := vector_subscript_ne_assertion outside begins (m.begin_idx wraw)
      have he := vector_subscript_ne_assertion outside ends (m.end_idx wraw)
      cases hbv : vector_subscript outside begins (m.begin_idx wraw) with
      | error f =>
        rw [hbv] at hb
        simpa using hb
      | ok b =>
        cases hev : vector_subscript outside ends (m.end_idx wraw) with
        | error f =>
          rw [hev] at he
          simpa using he
        | ok e => simp

/-! ## Position resolution -/

/-- The `int` subtraction at its limit: offsets -1 and `INT_MAX` give the length
`INT_MIN`. -/
theorem organize_length_wraps :
    (Morph.mk (some "가") 100 1 [234, 176, 128] (some [234, 176, 128]) (some "VV")
        (-1) (-1) 0).organize (fun _ _ => none) 100 [-1] [2147483647]
      = .ok (Morph.mk (some "가") 100 1 [234, 176, 128] (some [234, 176, 128]) (some "VV")
          (-1) (-2147483648) 0) := by
  decide

/-- The count `INT_MIN`: `wlength - 1` wraps to `INT_MAX`, the assertion passes, and
`end_idx` lies far outside the table. -/
theorem organize_count_int_min :
    (Morph.mk (some "가") 100 (-2147483648) [234, 176, 128] (some [234, 176, 128])
        (some "VV") (-1) (-1) 0).end_idx 100 = 2147483647
    ∧ (Morph.mk (some "가") 100 (-2147483648) [234, 176, 128] (some [234, 176, 128])
        (some "VV") (-1) (-1) 0).organize (fun _ _ => none) 100 [0] [3] = .error .undefined := by
  constructor <;> decide

/-- Both assertions of `organize` pass and both reads give a value: the call returns
the token with the two byte fields replaced. -/
theorem organize_eq_ok (outside : Outside) (m : Morph) (wraw : Ptr) (begins ends : List Int)
    (b e : Int) (hraw : wraw ≠ nullptr) (hl : 0 ≤ wrap_int (m.wlength - 1))
    (hb : vector_subscript outside begins (m.begin_idx wraw) = .ok b)
    (he : vector_subscript outside ends (m.end_idx wraw) = .ok e) :
    m.organize outside wraw begins ends
      = .ok { m with begin := b, length := wrap_int (e - b) } := by
  rw [organize_steps, hb, he]
  simp only [hraw, if_false]
  rw [if_neg (by omega)]

/-- The two indices of a token at character `s` of the buffer that spans `n ≥ 1`
characters, when the last of them fits an `int`. -/
theorem organize_indices (m : Morph) (wraw : Ptr) (s n : Nat)
    (hs : m.wbegin = wraw + s) (hn : m.wlength = (n : Int)) (hn1 : 1 ≤ n)
    (hfit : ((s + n - 1 : Nat) : Int) ≤ INT_MAX) :
    m.begin_idx wraw = (s : Int) ∧ m.end_idx wraw = ((s + n - 1 : Nat) : Int)
      ∧ wrap_int (m.wlength - 1) = (n : Int) - 1 := by
  rw [INT_MAX_eq] at hfit
  have hb : m.begin_idx wraw = (s : Int) := by
    unfold Morph.begin_idx
    rw [hs]
    unfold wrap_int
    push_cast
    omega
  refine ⟨hb, ?_, ?_⟩
  · unfold Morph.end_idx
    rw [hb, hn]
    unfold wrap_int
    omega
  · rw [hn]
    unfold wrap_int
    omega

/-- The form of `organize_eq_ok` for a token at character `s` of the buffer that
spans `n ≥ 1` characters. -/
theorem organize_at_index (outside : Outside) (m : Morph) (wraw : Ptr) (begins ends : List Int)
    (s n : Nat) (b e : Int)
    (hraw : wraw ≠ nullptr) (hs : m.wbegin = wraw + s)
    (hn : m.wlength = (n : Int)) (hn1 : 1 ≤ n)
    (hfit : ((s + n - 1 : Nat) : Int) ≤ INT_MAX)
    (hb : begins[s]? = some b) (he : ends[s + n - 1]? = some e) :
    m.organize outside wraw begins ends
      = .ok { m with begin := b, length := wrap_int (e - b) } := by
  obtain ⟨hi, hj, hl⟩ := organize_indices m wraw s n hs hn hn1 hfit
  refine organize_eq_ok outside m wraw begins ends b e hraw (by rw [hl]; omega) ?_ ?_
  · rw [hi]; exact vector_subscript_natCast outside begins s b hb
  · rw [hj]; exact vector_subscript_natCast outside ends (s + n - 1) e he

/-- A call of `organize` that returns has read both tables at `begin_idx` and `end_idx`
and replaced the two byte fields, nothing else. -/
theorem organize_ok_shape (outside : Outside) (m m' : Morph) (wraw : Ptr)
    (begins ends : List Int) (h : m.organize outside wraw begins ends = .ok m') :
    ∃ b e, vector_subscript outside begins (m.begin_idx wraw) = .ok b
      ∧ vector_subscript outside ends (m.end_idx wraw) = .ok e
      ∧ m' = { m with begin := b, length := wrap_int (e - b) } := by
  rw [organize_steps] at h
  by_cases hraw : wraw = nullptr
  · simp [hraw] at h
  · by_cases hl : wrap_int (m.wlength - 1) < 0
    · simp [hraw, hl] at h
    · simp only [hraw, hl, if_false] at h
      cases hb : vector_subscript outside begins (m.begin_idx wraw) with
      | error f => rw [hb] at h; cases h
      | ok b =>
        rw [hb] at h
        cases he : vector_subscript outside ends (m.end_idx wraw) with
        | error f => rw [he] at h; cases h
        | ok e =>
          rw [he] at h
          injection h with h
          exact ⟨b, e, rfl, rfl, h.symm⟩

/-- C1. Position resolution postcondition: for a token whose first character is
character `s` of the buffer (`wbegin = wraw + s`) and which spans `n ≥ 1` characters,
the index `s+n-1` fitting an `int`, and for tables in which `begins[s] = b` and
`ends[s+n-1] = e` exist, `organize` returns the token with `begin = begins[s]` and
`length = ends[s+n-1] - begins[s]`.  The subtraction is the `int` subtraction of the
source; it gives the exact difference whenever that fits an `int`, in particular for
all offsets between 0 and `INT_MAX`. -/
theorem organize_postcondition (outside : Outside) (m : Morph) (wraw : Ptr)
    (begins ends : List Int) (s n : Nat) (b e : Int)
    (hraw : wraw ≠ nullptr) (hs : m.wbegin = wraw + s)
    (hn : m.wlength = (n : Int)) (hn1 : 1 ≤ n)
    (hfit : ((s + n - 1 : Nat) : Int) ≤ INT_MAX)
    (hb : begins[s]? = some b) (he : ends[s + n - 1]? = some e) :
    m.organize outside wraw begins ends
        = .ok { m with begin := b, length := wrap_int (e - b) }
    ∧ (INT_MIN ≤ e - b → e - b ≤ INT_MAX →
        m.organize outside wraw begins ends = .ok { m with begin := b, length := e - b })
    ∧ (0 ≤ b → b ≤ INT_MAX → 0 ≤ e → e ≤ INT_MAX →
        m.organize outside wraw begins ends = .ok { m with begin := b, length := e - b }) := by
  have hres := organize_at_index outside m wraw begins ends s n b e hraw hs hn hn1 hfit hb he
  have exact : INT_MIN ≤ e - b → e - b ≤ INT_MAX →
      m.organize outside wraw begins ends = .ok { m with begin := b, length := e - b } := by
    intro h0 h1
    rw [hres, wrap_int_of_fits (e - b) h0 h1]
  refine ⟨hres, exact, ?_⟩
  intro hb0 hb1 he0 he1
  rw [INT_MAX_eq] at hb1 he1
  apply exact
  · rw [INT_MIN_eq]; omega
  · rw [INT_MAX_eq]; omega

/-- Witness of C1: a token at character 1 spanning 2 characters, with three-byte
characters. -/
theorem organize_postcondition_witness :
    (100 : Ptr) ≠ nullptr ∧
    (Morph.mk (some "하다") 101 2 [] none (some "VV") (-1) (-1) 0).organize
        (fun _ _ => none) 100 [0, 3, 6] [3, 6, 9]
      = .ok { Morph.mk (some "하다") 101 2 [] none (some "VV") (-1) (-1) 0 with
                begin := 3, length := 9 - 3 } :=
  ⟨by decide,
   (organize_postcondition (fun _ _ => none)
     (Morph.mk (some "하다") 101 2 [] none (some "VV") (-1) (-1) 0)
     100 [0, 3, 6] [3, 6, 9] 1 2 3 9 (by decide) rfl rfl (by decide) (by decide) rfl rfl).2.1
     (by decide) (by decide)⟩

/-- C2. Fixed-width resolution: against tables of `int`s with `begins[i] = i*k` and
`ends[i] = i*k + k` that reach index `s+n-1`, a token starting at character `s` and
spanning `n ≥ 1` characters resolves to `begin = s*k` and `length = n*k`, for every
width `k ≥ 1`; with three-byte characters, start 1 and count 2 give `begin = 3` and
`length = 6`. -/
theorem organize_fixed_width (outside : Outside) (m : Morph) (wraw : Ptr)
    (begins ends : List Int) (k s n : Nat)
    (hraw : wraw ≠ nullptr) (hs : m.wbegin = wraw + s)
    (hn : m.wlength = (n : Int)) (hn1 : 1 ≤ n) (hk : 1 ≤ k)
    (hbl : s + n - 1 < begins.length) (hel : s + n - 1 < ends.length)
    (hb : ∀ i, i < begins.length → begins[i]? = some ((i : Int) * k))
    (he : ∀ i, i < ends.length → ends[i]? = some ((i : Int) * k + k))
    (hint : ∀ x ∈ ends, x ≤ INT_MAX) :
    m.organize outside wraw begins ends
        = .ok { m with begin := (s : Int) * k, length := (n : Int) * k }
    ∧ ∀ (t : Morph) (raw : Ptr), raw ≠ nullptr → t.wbegin = raw + 1 → t.wlength = 2 →
        t.organize outside raw [0 * 3, 1 * 3, 2 * 3] [0 * 3 + 3, 1 * 3 + 3, 2 * 3 + 3]
          = .ok { t with begin := 3, length := 6 } := by
  constructor
  · obtain ⟨n', rfl⟩ : ∃ n', n = n' + 1 := ⟨n - 1, by omega⟩
    have hidx : s + (n' + 1) - 1 = s + n' := by omega
    rw [hidx] at hbl hel
    have hlast := he (s + n') hel
    have hmax : ((s + n' : Nat) : Int) * k + k ≤ INT_MAX :=
      hint _ (List.mem_iff_getElem?.2 ⟨_, hlast⟩)
    rw [INT_MAX_eq] at hmax
    have hk' : (1 : Int) ≤ (k : Int) := by exact_mod_cast hk
    have hs0 : (0 : Int) ≤ (s : Int) := Int.natCast_nonneg s
    have hn0 : (0 : Int) ≤ (n' : Int) := Int.natCast_nonneg n'
    push_cast at hmax
    have hfit : ((s + (n' + 1) - 1 : Nat) : Int) ≤ INT_MAX := by
      rw [hidx, INT_MAX_eq]
      push_cast
      nlinarith [mul_nonneg (add_nonneg hs0 hn0) (sub_nonneg.2 hk')]
    have hlen0 : (0 : Int) ≤ ((n' + 1 : Nat) : Int) * k := by positivity
    have hlen1 : ((n' + 1 : Nat) : Int) * k ≤ 2147483647 := by
      push_cast
      nlinarith [mul_nonneg hs0 (le_trans zero_le_one hk')]
    have hres := organize_at_index outside m wraw begins ends s (n' + 1) _ _ hraw hs hn
      (by omega) hfit (hb s (by omega)) (by rw [hidx]; exact hlast)
    have hdiff : (((s + n' : Nat) : Int) * k + k - (s : Int) * k)
        = ((n' + 1 : Nat) : Int) * k := by
      push_cast; ring
    rw [hres, hdiff, wrap_int_of_fits _ (by rw [INT_MIN_eq]; omega) (by rw [INT_MAX_eq]; omega)]
  · intro t raw hraw' ht hl
    have h := organize_at_index outside t raw [0 * 3, 1 * 3, 2 * 3]
      [0 * 3 + 3, 1 * 3 + 3, 2 * 3 + 3] 1 2 3 9 hraw' ht hl (by decide) (by decide)
      (by decide) (by decide)
    rw [h]
    have h6 : wrap_int (9 - 3) = 6 := by decide
    rw [h6]

/-- Witness of C2: the token "하다"/VV at character 1 with count 2, resolved against the
tables of three-byte characters. -/
theorem organize_fixed_width_witness :
    (Morph.mk (some "하다") 101 2 [] none (some "VV") (-1) (-1) 0).organize
        (fun _ _ => none) 100 [0, 3, 6] [3, 6, 9]
      = .ok { Morph.mk (some "하다") 101 2 [] none (some "VV") (-1) (-1) 0 with
                begin := ((1 : Nat) : Int) * (3 : Nat), length := ((2 : Nat) : Int) * (3 : Nat) } :=
  (organize_fixed_width (fun _ _ => none)
    (Morph.mk (some "하다") 101 2 [] none (some "VV") (-1) (-1) 0)
    100 [0, 3, 6] [3, 6, 9] 3 1 2 (by decide) rfl rfl (by decide) (by decide) (by decide)
    (by decide) (by decide) (by decide) (by decide)).1

/-! ## Construction -/

/-- C3, as stated, fails: with the smallest well-formed table bound, constructing a
token from the empty surface text with character count 0 returns a token, and so does
constructing one from a one-character text with count 0. -/
theorem ctor_accepts_empty_text_and_zero_count :
    Morph.ctor 46 (some "") 37 100 0
      = .ok { wlex := some "", wbegin := 100, wlength := 0, _lex := [], lex := some [],
              tag := some "VV", begin := -1, length := -1, next := nullptr }
    ∧ Morph.ctor 46 (some "가") 37 100 0
      = .ok { wlex := some "가", wbegin := 100, wlength := 0, _lex := [234, 176, 128],
              lex := some [234, 176, 128], tag := some "VV", begin := -1, length := -1,
              next := nullptr } := by
  constructor <;> decide

/-- C3, amended. The constructor returns a token exactly when the surface pointer is
not null and the tag ordinal passes the check of `pos_str`; neither the emptiness of the
text nor the character count plays a part, and the token holds the text and the count
it was given. -/
theorem ctor_rejects_null_text_only (POS_TAG_SIZE : Nat) (wlex : Option String) (tag : Int)
    (wbegin : Ptr) (wlength : Int) :
    ((∃ m, Morph.ctor POS_TAG_SIZE wlex tag wbegin wlength = .ok m)
        ↔ (wlex ≠ none ∧ 0 < tag ∧ tag ≤ (POS_TAG_SIZE : Int)))
    ∧ (∀ m, Morph.ctor POS_TAG_SIZE wlex tag wbegin wlength = .ok m →
        m.wlex = wlex ∧ m.wlength = wlength) := by
  have key : ∀ m, Morph.ctor POS_TAG_SIZE wlex tag wbegin wlength = .ok m →
      (wlex ≠ none ∧ 0 < tag ∧ tag ≤ (POS_TAG_SIZE : Int))
        ∧ m.wlex = wlex ∧ m.wlength = wlength := by
    intro m hm
    cases wlex with
    | none => rw [ctor_null] at hm; cases hm
    | some w =>
      by_cases hr : 0 < tag ∧ tag ≤ (POS_TAG_SIZE : Int)
      · obtain ⟨r, -, hr'⟩ := pos_str_of_range POS_TAG_SIZE tag hr.1 hr.2
        rw [ctor_of_pos_str _ _ _ _ _ _ hr'] at hm
        injection hm with hm
        subst hm
        exact ⟨⟨by simp, hr⟩, rfl, rfl⟩
      · rw [ctor_bad_tag _ _ _ _ _ (by omega)] at hm; cases hm
  refine ⟨⟨fun ⟨m, hm⟩ => (key m hm).1, ?_⟩, fun m hm => (key m hm).2⟩
  rintro ⟨hw, h0, h1⟩
  cases wlex with
  | none => exact absurd rfl hw
  | some w =>
    obtain ⟨r, -, hr'⟩ := pos_str_of_range POS_TAG_SIZE tag h0 h1
    exact ⟨_, ctor_of_pos_str _ _ _ _ _ _ hr'⟩

/-- C4, as stated, fails: a token at character 5 of the buffer, resolved against tables
of length 1, passes both assertions and reaches the unchecked subscript `wbegins[5]`.
Where the memory past the tables holds 77, the call returns and has set `begin` to 77;
where that memory cannot be read, the access faults, which is no failed assertion. -/
theorem organize_short_tables_unchecked :
    (Morph.mk (some "가") 105 1 [234, 176, 128] (some [234, 176, 128]) (some "VV")
        (-1) (-1) 0).organize (fun _ _ => some 77) 100 [0] [3]
      = .ok (Morph.mk (some "가") 105 1 [234, 176, 128] (some [234, 176, 128]) (some "VV")
          77 0 0)
    ∧ (Morph.mk (some "가") 105 1 [234, 176, 128] (some [234, 176, 128]) (some "VV")
        (-1) (-1) 0).organize (fun _ _ => none) 100 [0] [3] = .error .undefined
    ∧ (Morph.mk (some "가") 105 1 [234, 176, 128] (some [234, 176, 128]) (some "VV")
        (-1) (-1) 0).organize (fun _ _ => none) 100 [0] [3] ≠ .error .assertion := by
  refine ⟨by decide, by decide, by decide⟩

/-- C4, amended. Resolution neither clamps nor checks its indices.  For a count above
`INT_MIN`, `organize` fails an assertion exactly when the buffer is null or the count is
below 1.  A call that returns has read `begins` at `begin_idx` and `ends` at `end_idx`,
at those very indices; with both indices valid the values are the table entries.  With
the assertions passed and an index outside its table the read is unchecked: the call
returns with the byte fields computed from the value that lies there, or the access
faults. -/
theorem organize_never_clamps (outside : Outside) (m : Morph) (wraw : Ptr)
    (begins ends : List Int) (hmin : INT_MIN < m.wlength) (hmax : m.wlength ≤ INT_MAX) :
    (m.organize outside wraw begins ends = .error .assertion
        ↔ (wraw = nullptr ∨ m.wlength < 1))
    ∧ (∀ m', m.organize outside wraw begins ends = .ok m' →
        ∃ b e, vector_subscript outside begins (m.begin_idx wraw) = .ok b
          ∧ vector_subscript outside ends (m.end_idx wraw) = .ok e
          ∧ m' = { m with begin := b, length := wrap_int (e - b) })
    ∧ (∀ b e, wraw ≠ nullptr → 1 ≤ m.wlength →
        0 ≤ m.begin_idx wraw → begins[(m.begin_idx wraw).toNat]? = some b →
        0 ≤ m.end_idx wraw → ends[(m.end_idx wraw).toNat]? = some e →
        m.organize outside wraw begins ends
          = .ok { m with begin := b, length := wrap_int (e - b) })
    ∧ (∀ g e, wraw ≠ nullptr → 1 ≤ m.wlength →
        (m.begin_idx wraw < 0 ∨ (begins.length : Int) ≤ m.begin_idx wraw) →
        outside begins (m.begin_idx wraw) = some g →
        vector_subscript outside ends (m.end_idx wraw) = .ok e →
        m.organize outside wraw begins ends
          = .ok { m with begin := g, length := wrap_int (e - g) })
    ∧ (∀ b g, wraw ≠ nullptr → 1 ≤ m.wlength →
        vector_subscript outside begins (m.begin_idx wraw) = .ok b →
        (m.end_idx wraw < 0 ∨ (ends.length : Int) ≤ m.end_idx wraw) →
        outside ends (m.end_idx wraw) = some g →
        m.organize outside wraw begins ends
          = .ok { m with begin := b, length := wrap_int (g - b) })
    ∧ (wraw ≠ nullptr → 1 ≤ m.wlength →
        (m.begin_idx wraw < 0 ∨ (begins.length : Int) ≤ m.begin_idx wraw) →
        outside begins (m.begin_idx wraw) = none →
        m.organize outside wraw begins ends = .error .undefined) := by
  have hwrap : wrap_int (m.wlength - 1) = m.wlength - 1 := by
    rw [INT_MIN_eq] at hmin
    rw [INT_MAX_eq] at hmax
    exact wrap_int_of_fits _ (by rw [INT_MIN_eq]; omega) (by rw [INT_MAX_eq]; omega)
  have pass : 1 ≤ m.wlength → 0 ≤ wrap_int (m.wlength - 1) := by
    intro h; rw [hwrap]; omega
  refine ⟨?_, fun m' h => organize_ok_shape outside m m' wraw begins ends h, ?_, ?_, ?_, ?_⟩
  · rw [organize_assertion_iff, hwrap]
    constructor
    · rintro (h | h)
      · exact Or.inl h
      · exact Or.inr (by omega)
    · rintro (h | h)
      · exact Or.inl h
      · exact Or.inr (by omega)
  · intro b e hraw hl hi hb hj he
    refine organize_eq_ok outside m wraw begins ends b e hraw (pass hl) ?_ ?_
    · have := vector_subscript_natCast outside begins _ b hb
      rwa [Int.toNat_of_nonneg hi] at this
    · have := vector_subscript_natCast outside ends _ e he
      rwa [Int.toNat_of_nonneg hj] at this
  · intro g e hraw hl hout hg he
    refine organize_eq_ok outside m wraw begins ends g e hraw (pass hl) ?_ he
    rw [vector_subscript_outside outside begins _ hout, hg]
  · intro b g hraw hl hb hout hg
    refine organize_eq_ok outside m wraw begins ends b g hraw (pass hl) hb ?_
    rw [vector_subscript_outside outside ends _ hout, hg]
  · intro hraw hl hout hg
    have hl' : ¬ wrap_int (m.wlength - 1) < 0 := by have := pass hl; omega
    rw [organize_steps, vector_subscript_outside outside begins _ hout, hg]
    simp only [hraw, hl', if_false]

/-- Witness of C4 amended: the token at character 5 against tables of length 1, with 77
in the memory past the tables. -/
theorem organize_never_clamps_witness :
    (Morph.mk (some "가") 105 1 [234, 176, 128] (some [234, 176, 128]) (some "VV")
        (-1) (-1) 0).organize (fun _ _ => some 77) 100 [0] [3]
      = .ok { Morph.mk (some "가") 105 1 [234, 176, 128] (some [234, 176, 128]) (some "VV")
                (-1) (-1) 0 with begin := 77, length := wrap_int (77 - 77) } :=
  (organize_never_clamps (fun _ _ => some 77)
    (Morph.mk (some "가") 105 1 [234, 176, 128] (some [234, 176, 128]) (some "VV") (-1) (-1) 0)
    100 [0] [3] (by decide) (by decide)).2.2.2.1 77 77 (by decide) (by decide) (by decide)
    rfl (by decide)

/-! ## Serialization -/

theorem digitChar_of_lt_ten (d : Nat) (h : d < 10) : Nat.digitChar d = Char.ofNat (48 + d) := by
  interval_cases d <;> rfl

/-- With enough fuel, the digit loop of the runtime produces the base-10 digits of a
positive number, most significant first. -/
theorem toDigitsCore_eq_digits (fuel : Nat) :
    ∀ (n : Nat) (acc : List Char), 0 < n → n < fuel →
      Nat.toDigitsCore 10 fuel n acc = (Nat.digits 10 n).reverse.map Nat.digitChar ++ acc := by
  induction fuel with
  | zero => intro n acc _ h; omega
  | succ fuel ih =>
    intro n acc hn hlt
    rw [Nat.digits_def' (by norm_num) hn]
    unfold Nat.toDigitsCore
    by_cases hq : n / 10 = 0
    · simp [hq]
    · simp only [hq, if_false]
      rw [ih (n / 10) _ (Nat.pos_of_ne_zero hq) (by omega)]
      simp

theorem toDigits_eq_digits (n : Nat) (hn : 0 < n) :
    Nat.toDigits 10 n = (Nat.digits 10 n).reverse.map Nat.digitChar := by
  unfold Nat.toDigits
  rw [toDigitsCore_eq_digits (n + 1) n [] hn (by omega)]
  simp

/-- The digits written for a natural number are its plain decimal numeral. -/
theorem toDigits_plain (n : Nat) :
    ∃ ds : List Nat, ds ≠ [] ∧ (∀ d ∈ ds, d < 10) ∧ (ds.head? = some 0 → ds = [0])
      ∧ Nat.ofDigits 10 ds.reverse = n
      ∧ Nat.toDigits 10 n = ds.map (fun d => Char.ofNat (48 + d)) := by
  rcases Nat.eq_zero_or_pos n with h0 | hpos
  · subst h0
    exact ⟨[0], by simp, by simp, by simp, by simp, rfl⟩
  · have hne : n ≠ 0 := by omega
    have hnil : Nat.digits 10 n ≠ [] := Nat.digits_ne_nil_iff_ne_zero.mpr hne
    have hlt : ∀ d ∈ (Nat.digits 10 n).reverse, d < 10 := by
      intro d hd
      exact Nat.digits_lt_base (by norm_num) (List.mem_reverse.1 hd)
    refine ⟨(Nat.digits 10 n).reverse, by simpa using hnil, hlt, ?_, ?_, ?_⟩
    · intro hhead
      exfalso
      have hlast := Nat.getLast_digit_ne_zero 10 hne
      rw [List.head?_reverse, List.getLast?_eq_getLast _ hnil] at hhead
      exact hlast (Option.some.inj hhead)
    · rw [List.reverse_reverse, Nat.ofDigits_digits]
    · rw [toDigits_eq_digits n hpos]
      apply List.map_congr_left
      intro d hd
      exact digitChar_of_lt_ten d (hlt d hd)

/-- The text `put_int` writes is the plain decimal numeral of its argument. -/
theorem put_int_plain (z : Int) : PlainDecimal z (put_int z) := by
  obtain ⟨ds, h1, h2, h3, h4, h5⟩ := toDigits_plain z.natAbs
  refine ⟨ds, h1, h2, h3, h4, ?_⟩
  unfold put_int
  by_cases hz : z < 0
  · simp [hz, h5]
  · simp [hz, h5]

/-- C5. Serialized shape: for a token with surface text `w` and mnemonic `t`, `wstr`
returns `w`, `/`, `t`, `:`, the numeral of `begin`, `,`, the numeral of `length`; every
numeral is a plain decimal one (digits only, no leading zero or `+`, a `-` only for a
negative value); surface "하", tag "VV", `begin = 3`, `length = 3` give "하/VV:3,3". -/
theorem wstr_shape (m : Morph) (w t : String) (hw : m.wlex = some w) (ht : m.tag = some t) :
    m.wstr = .ok (w ++ "/" ++ t ++ ":" ++ put_int m.begin ++ "," ++ put_int m.length)
    ∧ PlainDecimal m.begin (put_int m.begin) ∧ PlainDecimal m.length (put_int m.length)
    ∧ (w = "하" → t = "VV" → m.begin = 3 → m.length = 3 → m.wstr = .ok "하/VV:3,3") := by
  have hshape : m.wstr
      = .ok (w ++ "/" ++ t ++ ":" ++ put_int m.begin ++ "," ++ put_int m.length) := by
    unfold Morph.wstr
    rw [hw, ht]
  refine ⟨hshape, put_int_plain _, put_int_plain _, ?_⟩
  intro h1 h2 h3 h4
  rw [hshape, h1, h2, h3, h4]
  rfl

/-- Witness of C5: the resolved token "하"/VV at byte 3 with byte length 3. -/
theorem wstr_shape_witness :
    (Morph.mk (some "하") 101 1 [237, 149, 152] (some [237, 149, 152]) (some "VV")
        3 3 0).wstr = .ok "하/VV:3,3" :=
  (wstr_shape (Morph.mk (some "하") 101 1 [237, 149, 152] (some [237, 149, 152]) (some "VV")
    3 3 0) "하" "VV" rfl rfl).2.2.2 rfl rfl rfl rfl

/-- C6. Unresolved serialization: a token constructed from surface text `w` and a tag
ordinal that has a mnemonic `t`, not yet resolved, serializes to `w`, `/`, `t`, `:-1,-1`;
surface "가" with ordinal 37 gives "가/VV:-1,-1". -/
theorem wstr_unresolved (POS_TAG_SIZE : Nat) (w : String) (tag : Int) (wbegin : Ptr)
    (wlength : Int) (hP : 46 ≤ POS_TAG_SIZE) (h0 : 0 < tag) (h1 : tag ≤ 46) :
    ∃ m t, Morph.ctor POS_TAG_SIZE (some w) tag wbegin wlength = .ok m
      ∧ TAG_SET_INIT[(tag - 1).toNat]? = some t ∧ m.tag = some t
      ∧ m.wstr = .ok (w ++ "/" ++ t ++ ":-1,-1")
      ∧ (w = "가" → tag = 37 → m.wstr = .ok "가/VV:-1,-1") := by
  obtain ⟨t, ht, -, hpos⟩ := pos_str_init POS_TAG_SIZE tag hP h0 h1
  have hstr : (Morph.mk (some w) wbegin wlength (w.toList.flatMap (fun c => utf8_bytes c.toNat))
      (some (w.toList.flatMap (fun c => utf8_bytes c.toNat))) (some t) (-1) (-1) nullptr).wstr
      = .ok (w ++ "/" ++ t ++ ":-1,-1") := by
    unfold Morph.wstr
    simp only
    have hneg : put_int (-1) = "-1" := by decide
    rw [hneg]
    simp [String.append_assoc]
  refine ⟨_, t, ctor_of_pos_str _ _ _ _ _ _ hpos, ht, rfl, hstr, ?_⟩
  intro hw htag
  subst hw htag
  have ht' : t = "VV" := by
    have h36 : TAG_SET_INIT[((37 : Int) - 1).toNat]? = some "VV" := by decide
    rw [h36] at ht
    exact (Option.some.inj ht).symm
  rw [hstr, ht']
  rfl

/-- Witness of C6: surface "가", ordinal 37, with the smallest well-formed table bound. -/
theorem wstr_unresolved_witness :
    ∃ m t, Morph.ctor 46 (some "가") 37 100 1 = .ok m
      ∧ TAG_SET_INIT[((37 : Int) - 1).toNat]? = some t ∧ m.tag = some t
      ∧ m.wstr = .ok ("가" ++ "/" ++ t ++ ":-1,-1")
      ∧ (("가" : String) = "가" → (37 : Int) = 37 → m.wstr = .ok "가/VV:-1,-1") :=
  wstr_unresolved 46 "가" 37 100 1 (by decide) (by decide) (by decide)

/-- C7. Constructor postcondition: for a surface text `w`, a tag ordinal that passes the
check of `pos_str` and a character count of at least 1, the constructor returns a token
with `begin = -1`, `length = -1`, a null `next`, the given text, start and count, and as
tag the table entry of the ordinal; that entry is the listed mnemonic when the ordinal
has one. The text need not be non-empty for this. -/
theorem ctor_postcondition (POS_TAG_SIZE : Nat) (w : String) (tag : Int) (wbegin : Ptr)
    (wlength : Int) (h0 : 0 < tag) (h1 : tag ≤ (POS_TAG_SIZE : Int)) (hl : 1 ≤ wlength) :
    ∃ m, Morph.ctor POS_TAG_SIZE (some w) tag wbegin wlength = .ok m
      ∧ m.begin = -1 ∧ m.length = -1 ∧ m.next = nullptr
      ∧ m.wlex = some w ∧ m.wbegin = wbegin ∧ m.wlength = wlength ∧ 1 ≤ m.wlength
      ∧ (_TAG_SET POS_TAG_SIZE)[(tag - 1).toNat]? = some m.tag
      ∧ (46 ≤ POS_TAG_SIZE → tag ≤ 46 →
          ∃ t, TAG_SET_INIT[(tag - 1).toNat]? = some t ∧ m.tag = some t) := by
  obtain ⟨r, hr, hpos⟩ := pos_str_of_range POS_TAG_SIZE tag h0 h1
  refine ⟨_, ctor_of_pos_str _ _ _ _ _ _ hpos, rfl, rfl, rfl, rfl, rfl, rfl, hl, hr, ?_⟩
  intro hP h46
  obtain ⟨t, ht, -, hpos'⟩ := pos_str_init POS_TAG_SIZE tag hP h0 h46
  rw [hpos] at hpos'
  injection hpos' with hrt
  exact ⟨t, ht, hrt⟩

/-- Witness of C7: "하다" tagged 37, starting at address 101 with count 2. -/
theorem ctor_postcondition_witness :
    ∃ m, Morph.ctor 46 (some "하다") 37 101 2 = .ok m
      ∧ m.begin = -1 ∧ m.length = -1 ∧ m.next = nullptr
      ∧ m.wlex = some "하다" ∧ m.wbegin = 101 ∧ m.wlength = 2 ∧ 1 ≤ m.wlength
      ∧ (_TAG_SET 46)[((37 : Int) - 1).toNat]? = some m.tag
      ∧ (46 ≤ 46 → (37 : Int) ≤ 46 →
          ∃ t, TAG_SET_INIT[((37 : Int) - 1).toNat]? = some t ∧ m.tag = some t) :=
  ctor_postcondition 46 "하다" 37 101 2 (by decide) (by decide) (by decide)

/-! ## Tag lookup -/

/-- C8. Tag lookup on the range 1..45: `pos_str n` returns entry `n-1` of the tag table,
a listed mnemonic; any two results of the same call are equal; ordinals 37, 20, 13 and
25 give "VV", "NNG", "JKS" and "SF". -/
theorem pos_str_valid_range (POS_TAG_SIZE : Nat) (n : Int) (hP : 46 ≤ POS_TAG_SIZE)
    (h1 : 1 ≤ n) (h45 : n ≤ 45) :
    (∃ t, TAG_SET_INIT[(n - 1).toNat]? = some t
        ∧ (_TAG_SET POS_TAG_SIZE)[(n - 1).toNat]? = some (some t)
        ∧ pos_str POS_TAG_SIZE n = .ok (some t))
    ∧ (∀ r₁ r₂, pos_str POS_TAG_SIZE n = .ok r₁ → pos_str POS_TAG_SIZE n = .ok r₂ → r₁ = r₂)
    ∧ pos_str POS_TAG_SIZE 37 = .ok (some "VV")
    ∧ pos_str POS_TAG_SIZE 20 = .ok (some "NNG")
    ∧ pos_str POS_TAG_SIZE 13 = .ok (some "JKS")
    ∧ pos_str POS_TAG_SIZE 25 = .ok (some "SF") := by
  have at_ordinal : ∀ (k : Int) (t : String), 0 < k → k ≤ 46 →
      TAG_SET_INIT[(k - 1).toNat]? = some t → pos_str POS_TAG_SIZE k = .ok (some t) := by
    intro k t hk0 hk1 hk
    obtain ⟨t', ht', -, hpos⟩ := pos_str_init POS_TAG_SIZE k hP hk0 hk1
    rw [hk] at ht'
    rw [hpos, Option.some.inj ht']
  refine ⟨pos_str_init POS_TAG_SIZE n hP (by omega) (by omega), ?_,
    at_ordinal 37 "VV" (by decide) (by decide) (by decide),
    at_ordinal 20 "NNG" (by decide) (by decide) (by decide),
    at_ordinal 13 "JKS" (by decide) (by decide) (by decide),
    at_ordinal 25 "SF" (by decide) (by decide) (by decide)⟩
  intro r₁ r₂ e₁ e₂
  rw [e₁] at e₂
  injection e₂

/-- Witness of C8: ordinal 1 with the smallest well-formed table bound. -/
theorem pos_str_valid_range_witness :
    pos_str 46 1 = .ok (some "EC") ∧ pos_str 46 37 = .ok (some "VV") :=
  ⟨by
    obtain ⟨t, ht, -, hpos⟩ :=
      (pos_str_valid_range 46 1 (by decide) (by decide) (by decide)).1
    have h0 : TAG_SET_INIT[((1 : Int) - 1).toNat]? = some "EC" := by decide
    rw [h0] at ht
    rw [hpos, Option.some.inj ht],
   (pos_str_valid_range 46 1 (by decide) (by decide) (by decide)).2.2.1⟩

/-- C9, as stated, fails: the tag table lists 46 mnemonics, not 45, and with the
smallest table bound that holds them ordinal 46 is a valid argument of `pos_str`, which
returns "ZZ" for it. -/
theorem tag_table_has_46_entries :
    TAG_SET_INIT.length = 46 ∧ TAG_SET_INIT.length ≠ 45
    ∧ (_TAG_SET 46).length = 46 ∧ pos_str 46 46 = .ok (some "ZZ") := by
  refine ⟨by decide, by decide, by decide, by decide⟩

/-- C9, amended. The tag vocabulary is a closed set of exactly 46 mnemonics: the tag
table lists 46 pairwise distinct strings; `pos_str` accepts exactly the ordinals from 1
to the bound of the table, which is at least 46; the ordinals 1..46 are the ones mapped
to a mnemonic, each to a listed one, and no other string is ever returned; ordinal 46
gives "ZZ". -/
theorem tag_vocabulary (POS_TAG_SIZE : Nat) (hP : 46 ≤ POS_TAG_SIZE) :
    TAG_SET_INIT.length = 46 ∧ TAG_SET_INIT.Nodup
    ∧ (∀ n : Int, (∃ r, pos_str POS_TAG_SIZE n = .ok r) ↔ (1 ≤ n ∧ n ≤ (POS_TAG_SIZE : Int)))
    ∧ (∀ n : Int, 1 ≤ n → n ≤ 46 → ∃ t, t ∈ TAG_SET_INIT ∧ pos_str POS_TAG_SIZE n = .ok (some t))
    ∧ (∀ (n : Int) (t : String), pos_str POS_TAG_SIZE n = .ok (some t) →
        t ∈ TAG_SET_INIT ∧ 1 ≤ n ∧ n ≤ 46)
    ∧ pos_str POS_TAG_SIZE 46 = .ok (some "ZZ") := by
  have listed : ∀ n : Int, 1 ≤ n → n ≤ 46 →
      ∃ t, t ∈ TAG_SET_INIT ∧ pos_str POS_TAG_SIZE n = .ok (some t) := by
    intro n h1 h46
    obtain ⟨t, ht, -, hpos⟩ := pos_str_init POS_TAG_SIZE n hP (by omega) h46
    exact ⟨t, List.mem_iff_getElem?.2 ⟨_, ht⟩, hpos⟩
  refine ⟨TAG_SET_INIT_length, TAG_SET_INIT_nodup, ?_, listed, ?_, ?_⟩
  · intro n
    constructor
    · rintro ⟨r, hr⟩
      by_contra hcon
      rw [pos_str_out_of_range POS_TAG_SIZE n (by omega)] at hr
      cases hr
    · rintro ⟨h1, h2⟩
      obtain ⟨r, -, hr⟩ := pos_str_of_range POS_TAG_SIZE n (by omega) h2
      exact ⟨r, hr⟩
  · intro n t hnt
    by_cases hlow : n ≤ 0 ∨ (POS_TAG_SIZE : Int) < n
    · rw [pos_str_out_of_range POS_TAG_SIZE n hlow] at hnt
      cases hnt
    · by_cases h46 : n ≤ 46
      · obtain ⟨t', ht', hpos⟩ := listed n (by omega) h46
        rw [hpos] at hnt
        injection hnt with hnt
        rw [← Option.some.inj hnt]
        exact ⟨ht', by omega, h46⟩
      · rw [pos_str_padding POS_TAG_SIZE n (by omega) (by omega)] at hnt
        injection hnt with hnt
        cases hnt
  · obtain ⟨t, ht, -, hpos⟩ := pos_str_init POS_TAG_SIZE 46 hP (by decide) (by decide)
    have h45 : TAG_SET_INIT[((46 : Int) - 1).toNat]? = some "ZZ" := by decide
    rw [h45] at ht
    rw [hpos, Option.some.inj ht]

/-- Witness of C9 amended: the smallest well-formed table bound, where the accepted
ordinals are exactly 1..46. -/
theorem tag_vocabulary_witness :
    (∀ n : Int, (∃ r, pos_str 46 n = .ok r) ↔ (1 ≤ n ∧ n ≤ ((46 : Nat) : Int)))
    ∧ pos_str 46 46 = .ok (some "ZZ") :=
  ⟨(tag_vocabulary 46 (by decide)).2.2.1, (tag_vocabulary 46 (by decide)).2.2.2.2.2⟩

/-- C10. Tag lookup rejects out-of-range ordinals: for `n ≤ 0` or `n` above the bound of
the tag table, `pos_str n` fails its assertion and returns nothing. -/
theorem pos_str_rejects_out_of_range (POS_TAG_SIZE : Nat) (n : Int)
    (h : n ≤ 0 ∨ (POS_TAG_SIZE : Int) < n) :
    pos_str POS_TAG_SIZE n = .error .assertion ∧ ∀ r, pos_str POS_TAG_SIZE n ≠ .ok r := by
  have hfail := pos_str_out_of_range POS_TAG_SIZE n h
  refine ⟨hfail, ?_⟩
  intro r hr
  rw [hfail] at hr
  cases hr

/-- Witness of C10: ordinals 0 and 47 against a table bound of 46. -/
theorem pos_str_rejects_out_of_range_witness :
    (pos_str 46 0 = .error .assertion ∧ ∀ r, pos_str 46 0 ≠ .ok r)
    ∧ (pos_str 46 47 = .error .assertion ∧ ∀ r, pos_str 46 47 ≠ .ok r) :=
  ⟨pos_str_rejects_out_of_range 46 0 (by decide),
   pos_str_rejects_out_of_range 46 47 (by decide)⟩

/-! ## Resolved positions -/

theorem pairwise_le_getElem? (l : List Int) (h : l.Pairwise (· ≤ ·)) (i j : Nat) (x y : Int)
    (hij : i ≤ j) (hx : l[i]? = some x) (hy : l[j]? = some y) : x ≤ y := by
  rcases Nat.eq_or_lt_of_le hij with heq | hlt
  · subst heq
    rw [hx] at hy
    exact le_of_eq (Option.some.inj hy)
  · obtain ⟨hi, rfl⟩ := List.getElem?_eq_some_iff.1 hx
    obtain ⟨hj, rfl⟩ := List.getElem?_eq_some_iff.1 hy
    exact List.pairwise_iff_getElem.1 h i j hi hj hlt

theorem mem_zip_of_getElem? {α β : Type} (l₁ : List α) (l₂ : List β) :
    ∀ (i : Nat) (x : α) (y : β), l₁[i]? = some x → l₂[i]? = some y → (x, y) ∈ List.zip l₁ l₂ := by
  induction l₁ generalizing l₂ with
  | nil => intro i x y hx; simp at hx
  | cons a l₁ ih =>
    intro i x y hx hy
    cases l₂ with
    | nil => simp at hy
    | cons b l₂ =>
      cases i with
      | zero =>
        simp only [List.getElem?_cons_zero, Option.some.injEq] at hx hy
        subst hx hy
        simp
      | succ i =>
        simp only [List.getElem?_cons_succ] at hx hy
        simp only [List.zip_cons_cons, List.mem_cons]
        exact Or.inr (ih l₂ i x y hx hy)

/-- C11. Resolved length is non-negative: for a token spanning `n ≥ 1` characters from
character `s` and tables that satisfy the input contract and reach index `s+n-1`, an
index that fits an `int`, `organize` returns a token whose `length` is the exact
difference `ends[s+n-1] - begins[s]` and is not negative. -/
theorem organize_length_nonneg (outside : Outside) (m : Morph) (wraw : Ptr)
    (begins ends : List Int) (s n : Nat)
    (hraw : wraw ≠ nullptr) (hs : m.wbegin = wraw + s)
    (hn : m.wlength = (n : Int)) (hn1 : 1 ≤ n)
    (hfit : ((s + n - 1 : Nat) : Int) ≤ INT_MAX)
    (hbl : s + n - 1 < begins.length) (hel : s + n - 1 < ends.length)
    (hc : InputContract begins ends) :
    ∃ m' b e, m.organize outside wraw begins ends = .ok m'
      ∧ begins[s]? = some b ∧ ends[s + n - 1]? = some e
      ∧ m'.begin = b ∧ m'.length = e - b ∧ 0 ≤ m'.length := by
  obtain ⟨hbo, heo, hbe, -, hme⟩ := hc
  have hsb : s < begins.length := by omega
  have hse : s < ends.length := by omega
  have hb : begins[s]? = some begins[s] := List.getElem?_eq_getElem hsb
  have he₀ : ends[s]? = some ends[s] := List.getElem?_eq_getElem hse
  have he : ends[s + n - 1]? = some ends[s + n - 1] := List.getElem?_eq_getElem hel
  have h1 : begins[s] ≤ ends[s] := hbe _ (mem_zip_of_getElem? begins ends s _ _ hb he₀)
  have h2 : ends[s] ≤ ends[s + n - 1] :=
    pairwise_le_getElem? ends hme s (s + n - 1) _ _ (by omega) he₀ he
  have h3 := hbo _ (List.getElem_mem hsb)
  have h4 := heo _ (List.getElem_mem hel)
  rw [INT_MAX_eq] at h3 h4
  have hw : wrap_int (ends[s + n - 1] - begins[s]) = ends[s + n - 1] - begins[s] :=
    wrap_int_of_fits _ (by rw [INT_MIN_eq]; omega) (by rw [INT_MAX_eq]; omega)
  have hres := organize_at_index outside m wraw begins ends s n _ _ hraw hs hn hn1 hfit hb he
  rw [hw] at hres
  refine ⟨_, _, _, hres, hb, he, rfl, rfl, ?_⟩
  show 0 ≤ ends[s + n - 1] - begins[s]
  omega

/-- Witness of C11: the token at character 1 with count 2 against the tables of
three-byte characters. -/
theorem organize_length_nonneg_witness :
    ∃ m' b e, (Morph.mk (some "하다") 101 2 [] none (some "VV") (-1) (-1) 0).organize
        (fun _ _ => none) 100 [0, 3, 6] [3, 6, 9] = .ok m'
      ∧ ([0, 3, 6] : List Int)[1]? = some b ∧ ([3, 6, 9] : List Int)[1 + 2 - 1]? = some e
      ∧ m'.begin = b ∧ m'.length = e - b ∧ 0 ≤ m'.length :=
  organize_length_nonneg (fun _ _ => none)
    (Morph.mk (some "하다") 101 2 [] none (some "VV") (-1) (-1) 0)
    100 [0, 3, 6] [3, 6, 9] 1 2 (by decide) rfl rfl (by decide) (by decide) (by decide)
    (by decide) ⟨by decide, by decide, by decide, by decide, by decide⟩

/-- A call other than `organize` that returns leaves the token as it was. -/
theorem after_other_call (POS_TAG_SIZE : Nat) (outside : Outside) (m m' : Morph) (c : Call)
    (hc : ∀ r bs es, c ≠ .organize r bs es) (h : m.after POS_TAG_SIZE outside c = .ok m') :
    m' = m := by
  cases c with
  | organize r bs es => exact absurd rfl (hc r bs es)
  | pos_str num =>
    simp only [Morph.after] at h
    cases hp : pos_str POS_TAG_SIZE num with
    | error f => rw [hp] at h; cases h
    | ok t => rw [hp] at h; injection h with h; exact h.symm
  | str =>
    simp only [Morph.after] at h
    cases hp : m.str with
    | error f => rw [hp] at h; cases h
    | ok t => rw [hp] at h; injection h with h; exact h.symm
  | wstr =>
    simp only [Morph.after] at h
    cases hp : m.wstr with
    | error f => rw [hp] at h; cases h
    | ok t => rw [hp] at h; injection h with h; exact h.symm

/-- C12. Frame of resolution: for a token at character `s` spanning `n ≥ 1` characters
and tables that hold `begins[s]` and `ends[s+n-1]`, the index fitting an `int`,
`organize` returns a token whose surface text, encoded text, tag, start, count and
`next` are those of the original; every returning call of `organize` is of that kind;
and a returning call that changes `begin` or `length` is a call of `organize`, never
one of `pos_str`, `str`, `wstr`. -/
theorem organize_frame (POS_TAG_SIZE : Nat) (outside : Outside) (m : Morph) (wraw : Ptr)
    (begins ends : List Int) (s n : Nat) (b e : Int)
    (hraw : wraw ≠ nullptr) (hs : m.wbegin = wraw + s)
    (hn : m.wlength = (n : Int)) (hn1 : 1 ≤ n)
    (hfit : ((s + n - 1 : Nat) : Int) ≤ INT_MAX)
    (hb : begins[s]? = some b) (he : ends[s + n - 1]? = some e) :
    (∃ m', m.organize outside wraw begins ends = .ok m'
      ∧ m'.wlex = m.wlex ∧ m'._lex = m._lex ∧ m'.lex = m.lex ∧ m'.tag = m.tag
      ∧ m'.wbegin = m.wbegin ∧ m'.wlength = m.wlength ∧ m'.next = m.next)
    ∧ (∀ (t t' : Morph) r bs es, t.organize outside r bs es = .ok t' →
        t'.wlex = t.wlex ∧ t'._lex = t._lex ∧ t'.lex = t.lex ∧ t'.tag = t.tag
        ∧ t'.wbegin = t.wbegin ∧ t'.wlength = t.wlength ∧ t'.next = t.next)
    ∧ (∀ (t t' : Morph) (c : Call), t.after POS_TAG_SIZE outside c = .ok t' →
        (t'.begin ≠ t.begin ∨ t'.length ≠ t.length) → ∃ r bs es, c = .organize r bs es) := by
  refine ⟨⟨_, organize_at_index outside m wraw begins ends s n b e hraw hs hn hn1 hfit hb he,
    rfl, rfl, rfl, rfl, rfl, rfl, rfl⟩, ?_, ?_⟩
  · intro t t' r bs es h
    obtain ⟨b', e', -, -, rfl⟩ := organize_ok_shape outside t t' r bs es h
    exact ⟨rfl, rfl, rfl, rfl, rfl, rfl, rfl⟩
  · intro t t' c h hchg
    by_contra hno
    push_neg at hno
    have heq := after_other_call POS_TAG_SIZE outside t t' c hno h
    subst heq
    rcases hchg with h1 | h1 <;> exact h1 rfl

/-- Witness of C12: the token "하다"/VV at character 1 with count 2, resolved against
the tables of three-byte characters. -/
theorem organize_frame_witness :
    ∃ m', (Morph.mk (some "하다") 101 2 [] none (some "VV") (-1) (-1) 7).organize
        (fun _ _ => none) 100 [0, 3, 6] [3, 6, 9] = .ok m'
      ∧ m'.wlex = some "하다" ∧ m'._lex = [] ∧ m'.lex = none ∧ m'.tag = some "VV"
      ∧ m'.wbegin = 101 ∧ m'.wlength = 2 ∧ m'.next = 7 :=
  (organize_frame 46 (fun _ _ => none)
    (Morph.mk (some "하다") 101 2 [] none (some "VV") (-1) (-1) 7)
    100 [0, 3, 6] [3, 6, 9] 1 2 3 9 (by decide) rfl rfl (by decide) (by decide) rfl rfl).1

/-! ## The encoded form -/

theorem digit_char_toNat (d : Nat) (h : d < 10) : (Char.ofNat (48 + d)).toNat = 48 + d := by
  interval_cases d <;> rfl

/-- The numeral of an `int` consists of ASCII characters. -/
theorem put_int_ascii (z : Int) : ∀ c ∈ (put_int z).toList, c.toNat < 128 := by
  obtain ⟨ds, -, hlt, -, -, hs⟩ := put_int_plain z
  intro c hc
  rw [hs] at hc
  simp only [String.toList, List.mem_append, List.mem_map] at hc
  rcases hc with hsign | ⟨d, hd, rfl⟩
  · by_cases hz : z < 0
    · simp only [hz, if_true, List.mem_singleton] at hsign
      subst hsign
      decide
    · simp [hz] at hsign
  · rw [digit_char_toNat d (hlt d hd)]
    have := hlt d hd
    omega

/-- An ASCII text is encoded character by character, each as the byte of its code. -/
theorem wstr_to_utf8_ascii (s : String) (h : ∀ c ∈ s.toList, c.toNat < 128) :
    wstr_to_utf8 (some s) = .ok (s.toList.map Char.toNat) := by
  unfold wstr_to_utf8
  simp only
  congr 1
  generalize s.toList = l at h
  induction l with
  | nil => rfl
  | cons c l ih =>
    have hc : c.toNat < 128 := h c (List.mem_cons_self c l)
    have hrest := ih (fun x hx => h x (List.mem_cons_of_mem c hx))
    simp only [List.flatMap_cons, List.map_cons, hrest]
    simp [utf8_bytes, hc]

/-- C13. `str` is the encoded form of `wstr`: for every token `str()` is `wstr_to_utf8`
applied to the result of `wstr()`; for a token whose surface text `w` and tag `t` are
ASCII, `wstr()` returns the text `w/t:begin,length` and `str()` returns the same
characters, one byte each; for the surface "하" the three bytes of its UTF-8 form stand
in its place. -/
theorem str_is_encoded_wstr (m : Morph) (w t : String) (hw : m.wlex = some w)
    (ht : m.tag = some t) (hwa : ∀ c ∈ w.toList, c.toNat < 128)
    (hta : ∀ c ∈ t.toList, c.toNat < 128) :
    (∀ x : Morph, x.str = x.wstr >>= fun s => wstr_to_utf8 (some s))
    ∧ (∃ s, s = w ++ "/" ++ t ++ ":" ++ put_int m.begin ++ "," ++ put_int m.length
        ∧ m.wstr = .ok s ∧ m.str = .ok (s.toList.map Char.toNat))
    ∧ (Morph.mk (some "하") 101 1 [237, 149, 152] (some [237, 149, 152]) (some "VV")
        3 3 0).str = .ok [237, 149, 152, 47, 86, 86, 58, 51, 44, 51] := by
  refine ⟨fun x => rfl, ⟨_, rfl, ?_, ?_⟩, by decide⟩
  · unfold Morph.wstr
    rw [hw, ht]
  · have hwstr : m.wstr
        = .ok (w ++ "/" ++ t ++ ":" ++ put_int m.begin ++ "," ++ put_int m.length) := by
      unfold Morph.wstr
      rw [hw, ht]
    unfold Morph.str
    rw [hwstr]
    show wstr_to_utf8 (some _) = _
    apply wstr_to_utf8_ascii
    intro c hc
    simp only [String.toList, String.data_append, List.mem_append] at hc
    rcases hc with ((((((h | h) | h) | h) | h) | h) | h)
    · exact hwa c h
    · have : c = '/' := by simpa using h
      subst this; decide
    · exact hta c h
    · have : c = ':' := by simpa using h
      subst this; decide
    · exact put_int_ascii m.begin c h
    · have : c = ',' := by simpa using h
      subst this; decide
    · exact put_int_ascii m.length c h

/-- Witness of C13: the ASCII token "go"/NNG at byte 0 with byte length 2. -/
theorem str_is_encoded_wstr_witness :
    ∃ s, s = "go" ++ "/" ++ "NNG" ++ ":" ++ put_int 0 ++ "," ++ put_int 2
      ∧ (Morph.mk (some "go") 100 2 [103, 111] (some [103, 111]) (some "NNG") 0 2 0).wstr
          = .ok s
      ∧ (Morph.mk (some "go") 100 2 [103, 111] (some [103, 111]) (some "NNG") 0 2 0).str
          = .ok (s.toList.map Char.toNat) :=
  (str_is_encoded_wstr
    (Morph.mk (some "go") 100 2 [103, 111] (some [103, 111]) (some "NNG") 0 2 0)
    "go" "NNG" rfl rfl (by decide) (by decide)).2.1

/-! ## The mnemonics -/

/-- Every listed mnemonic is made of two to four upper-case ASCII letters. -/
theorem TAG_SET_INIT_letters :
    ∀ t ∈ TAG_SET_INIT, 2 ≤ t.length ∧ t.length ≤ 4 ∧ ∀ c ∈ t.toList, c.isUpper = true := by
  decide

/-- C14. Every mnemonic of the tag table is a string of 2 to 4 upper-case ASCII letters
(none is in fact longer than 3), so for every ordinal that has a mnemonic `pos_str`
returns, and the constructor stores, a tag of length between 2 and 4. -/
theorem tag_mnemonic_letters (POS_TAG_SIZE : Nat) (n : Int) (hP : 46 ≤ POS_TAG_SIZE)
    (h1 : 1 ≤ n) (h46 : n ≤ 46) :
    (∀ t ∈ TAG_SET_INIT, 2 ≤ t.length ∧ t.length ≤ 4 ∧ ∀ c ∈ t.toList, c.isUpper = true)
    ∧ (∀ t ∈ TAG_SET_INIT, t.length ≤ 3)
    ∧ (∃ t, pos_str POS_TAG_SIZE n = .ok (some t)
        ∧ 2 ≤ t.length ∧ t.length ≤ 4 ∧ (∀ c ∈ t.toList, c.isUpper = true)
        ∧ ∀ (w : String) (wbegin : Ptr) (wlength : Int),
            ∃ m, Morph.ctor POS_TAG_SIZE (some w) n wbegin wlength = .ok m ∧ m.tag = some t) := by
  refine ⟨TAG_SET_INIT_letters, by decide, ?_⟩
  obtain ⟨t, ht, -, hpos⟩ := pos_str_init POS_TAG_SIZE n hP (by omega) h46
  have hmem : t ∈ TAG_SET_INIT := List.mem_iff_getElem?.2 ⟨_, ht⟩
  obtain ⟨hlo, hhi, hup⟩ := TAG_SET_INIT_letters t hmem
  refine ⟨t, hpos, hlo, hhi, hup, ?_⟩
  intro w wbegin wlength
  exact ⟨_, ctor_of_pos_str _ _ _ _ _ _ hpos, rfl⟩

/-- Witness of C14: ordinal 33, the three-letter mnemonic "SWK". -/
theorem tag_mnemonic_letters_witness :
    ∃ t, pos_str 46 33 = .ok (some t)
      ∧ 2 ≤ t.length ∧ t.length ≤ 4 ∧ (∀ c ∈ t.toList, c.isUpper = true)
      ∧ ∀ (w : String) (wbegin : Ptr) (wlength : Int),
          ∃ m, Morph.ctor 46 (some w) 33 wbegin wlength = .ok m ∧ m.tag = some t :=
  (tag_mnemonic_letters 46 33 (by decide) (by decide) (by decide)).2.2

/-! ## Reading a serialized token back -/

/-- Two lists that agree and are cut at the first occurrence of `c` have the same parts. -/
theorem append_cons_inj_left {α : Type} (c : α) :
    ∀ (xs xs' ys ys' : List α), c ∉ xs → c ∉ xs' →
      xs ++ c :: ys = xs' ++ c :: ys' → xs = xs' ∧ ys = ys' := by
  intro xs
  induction xs with
  | nil =>
    intro xs' ys ys' _ h' h
    cases xs' with
    | nil => simpa using h
    | cons a xs' =>
      simp only [List.nil_append, List.cons_append, List.cons.injEq] at h
      exact absurd (h.1 ▸ List.mem_cons_self a xs') h'
  | cons a xs ih =>
    intro xs' ys ys' hx h' h
    cases xs' with
    | nil =>
      simp only [List.nil_append, List.cons_append, List.cons.injEq] at h
      exact absurd (h.1 ▸ List.mem_cons_self a xs) hx
    | cons a' xs' =>
      simp only [List.cons_append, List.cons.injEq] at h
      obtain ⟨h1, h2⟩ := ih xs' ys ys' (fun hm => hx (List.mem_cons_of_mem a hm))
        (fun hm => h' (List.mem_cons_of_mem a' hm)) h.2
      exact ⟨by rw [h.1, h1], h2⟩

/-- Two lists that agree and are cut at the last occurrence of `c` have the same parts. -/
theorem append_singleton_inj_right {α : Type} (c : α) (xs xs' ys ys' : List α)
    (hy : c ∉ ys) (hy' : c ∉ ys') (h : xs ++ [c] ++ ys = xs' ++ [c] ++ ys') :
    xs = xs' ∧ ys = ys' := by
  have hr := congrArg List.reverse h
  simp only [List.reverse_append, List.reverse_cons, List.reverse_nil, List.nil_append,
    List.append_assoc, List.singleton_append] at hr
  obtain ⟨h1, h2⟩ := append_cons_inj_left c ys.reverse ys'.reverse xs.reverse xs'.reverse
    (by simpa using hy) (by simpa using hy') hr
  exact ⟨List.reverse_injective h2, List.reverse_injective h1⟩

theorem map_digit_char_inj :
    ∀ (ds ds' : List Nat), (∀ d ∈ ds, d < 10) → (∀ d ∈ ds', d < 10) →
      ds.map (fun d => Char.ofNat (48 + d)) = ds'.map (fun d => Char.ofNat (48 + d)) →
      ds = ds' := by
  intro ds
  induction ds with
  | nil =>
    intro ds' _ _ h
    cases ds' with
    | nil => rfl
    | cons d ds' => simp at h
  | cons d ds ih =>
    intro ds' hlt hlt' h
    cases ds' with
    | nil => simp at h
    | cons d' ds' =>
      simp only [List.map_cons, List.cons.injEq] at h
      have hd := digit_char_toNat d (hlt d (List.mem_cons_self d ds))
      have hd' := digit_char_toNat d' (hlt' d' (List.mem_cons_self d' ds'))
      have hdd : d = d' := by
        have := congrArg Char.toNat h.1
        rw [hd, hd'] at this
        omega
      rw [hdd, ih ds' (fun x hx => hlt x (List.mem_cons_of_mem d hx))
        (fun x hx => hlt' x (List.mem_cons_of_mem d' hx)) h.2]

/-- The characters of a numeral are `-` and the ten digits. -/
theorem put_int_chars (z : Int) :
    ∀ c ∈ (put_int z).toList, c = '-' ∨ (48 ≤ c.toNat ∧ c.toNat ≤ 57) := by
  obtain ⟨ds, -, hlt, -, -, hs⟩ := put_int_plain z
  intro c hc
  rw [hs] at hc
  simp only [String.toList, List.mem_append, List.mem_map] at hc
  rcases hc with hsign | ⟨d, hd, rfl⟩
  · by_cases hz : z < 0
    · simp only [hz, if_true, List.mem_singleton] at hsign
      exact Or.inl hsign
    · simp [hz] at hsign
  · right
    rw [digit_char_toNat d (hlt d hd)]
    have := hlt d hd
    omega

/-- Different integers have different numerals. -/
theorem put_int_injective (z z' : Int) (h : put_int z = put_int z') : z = z' := by
  obtain ⟨ds, hne, hlt, -, hval, hs⟩ := put_int_plain z
  obtain ⟨ds', hne', hlt', -, hval', hs'⟩ := put_int_plain z'
  rw [hs, hs'] at h
  injection h with h
  have not_minus : ∀ (l : List Nat), (∀ d ∈ l, d < 10) → l ≠ [] →
      ∀ (r : List Char), l.map (fun d => Char.ofNat (48 + d)) ≠ '-' :: r := by
    intro l hl hnil r hcon
    cases l with
    | nil => exact hnil rfl
    | cons d l =>
      simp only [List.map_cons, List.cons.injEq] at hcon
      have := congrArg Char.toNat hcon.1
      rw [digit_char_toNat d (hl d (List.mem_cons_self d l))] at this
      have h45 : ('-' : Char).toNat = 45 := by decide
      omega
  by_cases hz : z < 0 <;> by_cases hz' : z' < 0
  · simp only [hz, hz', if_true, List.singleton_append, List.cons.injEq, true_and] at h
    have hds := map_digit_char_inj ds ds' hlt hlt' h
    rw [hds, hval'] at hval
    omega
  · simp only [hz, hz', if_true, if_false, List.singleton_append, List.nil_append] at h
    exact absurd h.symm (not_minus ds' hlt' hne' _)
  · simp only [hz, hz', if_true, if_false, List.singleton_append, List.nil_append] at h
    exact absurd h (not_minus ds hlt hne _)
  · simp only [hz, hz', if_false, List.nil_append] at h
    have hds := map_digit_char_inj ds ds' hlt hlt' h
    rw [hds, hval'] at hval
    omega

theorem TAG_SET_INIT_no_slash : ∀ t ∈ TAG_SET_INIT, '/' ∉ t.toList := by
  decide

/-- C15. Serialization is injective: two tokens with surface texts `wa`, `wb` and
listed mnemonics `ta`, `tb` whose `wstr()` results are equal have the same surface text,
the same mnemonic, the same `begin` and the same `length`.  Nothing is assumed about the
surface texts, which may contain `/`, `:`, `,`, `-` and digits. -/
theorem wstr_injective (a b : Morph) (wa wb ta tb : String)
    (hwa : a.wlex = some wa) (hwb : b.wlex = some wb)
    (hta : a.tag = some ta) (htb : b.tag = some tb)
    (hma : ta ∈ TAG_SET_INIT) (hmb : tb ∈ TAG_SET_INIT)
    (h : a.wstr = b.wstr) :
    wa = wb ∧ ta = tb ∧ a.begin = b.begin ∧ a.length = b.length := by
  have no_comma : ∀ z : Int, ',' ∉ (put_int z).data := by
    intro z hc
    rcases put_int_chars z ',' hc with h1 | h1
    · exact absurd h1 (by decide)
    · have h44 : (',' : Char).toNat = 44 := by decide
      omega
  have no_colon : ∀ z : Int, ':' ∉ (put_int z).data := by
    intro z hc
    rcases put_int_chars z ':' hc with h1 | h1
    · exact absurd h1 (by decide)
    · have h58 : (':' : Char).toNat = 58 := by decide
      omega
  unfold Morph.wstr at h
  rw [hwa, hwb, hta, htb] at h
  simp only [Except.ok.injEq] at h
  have hd := String.ext_iff.1 h
  simp only [String.data_append] at hd
  obtain ⟨hd1, hlen⟩ := append_singleton_inj_right ',' _ _ _ _
    (no_comma a.length) (no_comma b.length) hd
  obtain ⟨hd2, hbeg⟩ := append_singleton_inj_right ':' _ _ _ _
    (no_colon a.begin) (no_colon b.begin) hd1
  obtain ⟨hw, ht⟩ := append_singleton_inj_right '/' _ _ _ _
    (TAG_SET_INIT_no_slash ta hma) (TAG_SET_INIT_no_slash tb hmb) hd2
  exact ⟨String.ext_iff.2 hw, String.ext_iff.2 ht,
    put_int_injective _ _ (String.ext_iff.2 hbeg),
    put_int_injective _ _ (String.ext_iff.2 hlen)⟩

/-- Witness of C15: two tokens that differ only in fields `wstr` does not print, with a
surface text made of separators and digits. -/
theorem wstr_injective_witness :
    ("1/2:3,-4" : String) = "1/2:3,-4" ∧ ("SN" : String) = "SN"
      ∧ (Morph.mk (some "1/2:3,-4") 100 8 [] none (some "SN") 0 8 0).begin
          = (Morph.mk (some "1/2:3,-4") 200 8 [] none (some "SN") 0 8 5).begin
      ∧ (Morph.mk (some "1/2:3,-4") 100 8 [] none (some "SN") 0 8 0).length
          = (Morph.mk (some "1/2:3,-4") 200 8 [] none (some "SN") 0 8 5).length :=
  wstr_injective (Morph.mk (some "1/2:3,-4") 100 8 [] none (some "SN") 0 8 0)
    (Morph.mk (some "1/2:3,-4") 200 8 [] none (some "SN") 0 8 5)
    "1/2:3,-4" "1/2:3,-4" "SN" "SN" rfl rfl rfl rfl (by decide) (by decide) (by decide)

/-! ## Adjacent tokens, repeated resolution -/

/-- C16. Adjacent tokens tile the byte stream: with tables of `int`s in which every
character ends where the next one begins (`ends[i] = begins[i+1]`), a token `A` at
character `s` with count `nA ≥ 1`, a token `B` at character `s + nA` with count
`nB ≥ 1` and a token `C` at character `s` with count `nA + nB`, all indices valid and
fitting an `int`, all three resolve, and `B.begin = A.begin + A.length`,
`C.begin = A.begin`, `C.length = A.length + B.length`.  The sums are those of `int`
arithmetic; they are the exact sums when no offset of the tables is negative. -/
theorem organize_adjacent_tokens (outside : Outside) (A B C : Morph) (wraw : Ptr)
    (begins ends : List Int) (s nA nB : Nat) (hraw : wraw ≠ nullptr)
    (hA : A.wbegin = wraw + s) (hAn : A.wlength = (nA : Int)) (hA1 : 1 ≤ nA)
    (hB : B.wbegin = wraw + (s + nA)) (hBn : B.wlength = (nB : Int)) (hB1 : 1 ≤ nB)
    (hC : C.wbegin = wraw + s) (hCn : C.wlength = ((nA + nB : Nat) : Int))
    (hfit : ((s + nA + nB - 1 : Nat) : Int) ≤ INT_MAX)
    (hbl : s + nA + nB - 1 < begins.length) (hel : s + nA + nB - 1 < ends.length)
    (htile : ∀ i, i < begins.length - 1 → ends[i]? = begins[i + 1]?)
    (hbi : ∀ x ∈ begins, INT_MIN ≤ x ∧ x ≤ INT_MAX)
    (hei : ∀ x ∈ ends, INT_MIN ≤ x ∧ x ≤ INT_MAX) :
    ∃ A' B' C', A.organize outside wraw begins ends = .ok A'
      ∧ B.organize outside wraw begins ends = .ok B'
      ∧ C.organize outside wraw begins ends = .ok C'
      ∧ B'.begin = wrap_int (A'.begin + A'.length)
      ∧ C'.begin = A'.begin
      ∧ C'.length = wrap_int (A'.length + B'.length)
      ∧ ((∀ x ∈ begins, 0 ≤ x) → (∀ x ∈ ends, 0 ≤ x) →
          B'.begin = A'.begin + A'.length ∧ C'.length = A'.length + B'.length) := by
  rw [INT_MAX_eq] at hfit
  have hsb : s < begins.length := by omega
  have hmb : s + nA < begins.length := by omega
  have hme : s + nA - 1 < ends.length := by omega
  have hbs : begins[s]? = some begins[s] := List.getElem?_eq_getElem hsb
  have hbm : begins[s + nA]? = some begins[s + nA] := List.getElem?_eq_getElem hmb
  have hem : ends[s + nA - 1]? = some ends[s + nA - 1] := List.getElem?_eq_getElem hme
  have hee : ends[s + nA + nB - 1]? = some ends[s + nA + nB - 1] :=
    List.getElem?_eq_getElem hel
  have hjoin : ends[s + nA - 1] = begins[s + nA] := by
    have := htile (s + nA - 1) (by omega)
    rw [hem, show s + nA - 1 + 1 = s + nA by omega, hbm] at this
    exact Option.some.inj this
  have hAr := organize_at_index outside A wraw begins ends s nA _ _ hraw hA hAn hA1
    (by rw [INT_MAX_eq]; omega) hbs hem
  have hBr := organize_at_index outside B wraw begins ends (s + nA) nB _ _ hraw hB hBn hB1
    (by rw [INT_MAX_eq]; omega) hbm hee
  have hCr := organize_at_index outside C wraw begins ends s (nA + nB) _ _ hraw hC hCn
    (by omega) (by rw [INT_MAX_eq]; omega) hbs (by rw [← Nat.add_assoc]; exact hee)
  have r0 := hbi _ (List.getElem_mem hsb)
  have r1 := hbi _ (List.getElem_mem hmb)
  have r2 := hei _ (List.getElem_mem hel)
  rw [INT_MIN_eq, INT_MAX_eq] at r0 r1 r2
  refine ⟨_, _, _, hAr, hBr, hCr, ?_, rfl, ?_, ?_⟩
  · show begins[s + nA] = wrap_int (begins[s] + wrap_int (ends[s + nA - 1] - begins[s]))
    rw [hjoin]
    unfold wrap_int
    omega
  · show wrap_int (ends[s + nA + nB - 1] - begins[s])
        = wrap_int (wrap_int (ends[s + nA - 1] - begins[s])
            + wrap_int (ends[s + nA + nB - 1] - begins[s + nA]))
    rw [hjoin]
    unfold wrap_int
    omega
  · intro hb0 he0
    have p0 := hb0 _ (List.getElem_mem hsb)
    have p1 := hb0 _ (List.getElem_mem hmb)
    have p2 := he0 _ (List.getElem_mem hel)
    constructor
    · show begins[s + nA] = begins[s] + wrap_int (ends[s + nA - 1] - begins[s])
      rw [hjoin]
      unfold wrap_int
      omega
    · show wrap_int (ends[s + nA + nB - 1] - begins[s])
          = wrap_int (ends[s + nA - 1] - begins[s])
              + wrap_int (ends[s + nA + nB - 1] - begins[s + nA])
      rw [hjoin]
      unfold wrap_int
      omega

/-- Witness of C16: "하" at character 0, "다요" at character 1 and "하다요" at character 0
of a buffer of three-byte characters. -/
theorem organize_adjacent_tokens_witness :
    ∃ A' B' C',
      (Morph.mk (some "하") 100 1 [] none (some "VV") (-1) (-1) 0).organize
          (fun _ _ => none) 100 [0, 3, 6] [3, 6, 9] = .ok A'
      ∧ (Morph.mk (some "다요") 101 2 [] none (some "EF") (-1) (-1) 0).organize
          (fun _ _ => none) 100 [0, 3, 6] [3, 6, 9] = .ok B'
      ∧ (Morph.mk (some "하다요") 100 3 [] none (some "VV") (-1) (-1) 0).organize
          (fun _ _ => none) 100 [0, 3, 6] [3, 6, 9] = .ok C'
      ∧ B'.begin = A'.begin + A'.length
      ∧ C'.begin = A'.begin
      ∧ C'.length = A'.length + B'.length := by
  obtain ⟨A', B', C', hA, hB, hC, -, hCb, -, hexact⟩ :=
    organize_adjacent_tokens (fun _ _ => none)
      (Morph.mk (some "하") 100 1 [] none (some "VV") (-1) (-1) 0)
      (Morph.mk (some "다요") 101 2 [] none (some "EF") (-1) (-1) 0)
      (Morph.mk (some "하다요") 100 3 [] none (some "VV") (-1) (-1) 0)
      100 [0, 3, 6] [3, 6, 9] 0 1 2 (by decide) rfl rfl (by decide) rfl rfl (by decide)
      rfl rfl (by decide) (by decide) (by decide) (by decide) (by decide) (by decide)
  exact ⟨A', B', C', hA, hB, hC, (hexact (by decide) (by decide)).1, hCb,
    (hexact (by decide) (by decide)).2⟩

/-- C17. The tag lookup is injective: the tag table has no duplicate mnemonic, and for
ordinals `m`, `n` that have a mnemonic, `pos_str m = pos_str n` implies `m = n`. -/
theorem pos_str_injective (POS_TAG_SIZE : Nat) (m n : Int) (hP : 46 ≤ POS_TAG_SIZE)
    (hm1 : 1 ≤ m) (hm : m ≤ 46) (hn1 : 1 ≤ n) (hn : n ≤ 46)
    (h : pos_str POS_TAG_SIZE m = pos_str POS_TAG_SIZE n) :
    m = n ∧ TAG_SET_INIT.Nodup := by
  refine ⟨?_, TAG_SET_INIT_nodup⟩
  obtain ⟨t, ht, -, hpm⟩ := pos_str_init POS_TAG_SIZE m hP (by omega) hm
  obtain ⟨u, hu, -, hpn⟩ := pos_str_init POS_TAG_SIZE n hP (by omega) hn
  rw [hpm, hpn] at h
  have htu : t = u := by
    injection h with h
    exact Option.some.inj h
  obtain ⟨hi, hti⟩ := List.getElem?_eq_some_iff.1 ht
  obtain ⟨hj, huj⟩ := List.getElem?_eq_some_iff.1 hu
  have hidx : (m - 1).toNat = (n - 1).toNat :=
    (TAG_SET_INIT_nodup.getElem_inj_iff).1 (by rw [hti, huj, htu])
  omega

/-- Witness of C17: ordinal 37 compared with itself, the only way two lookups agree. -/
theorem pos_str_injective_witness : ((37 : Int) = 37) ∧ TAG_SET_INIT.Nodup :=
  pos_str_injective 46 37 37 (by decide) (by decide) (by decide) (by decide) (by decide) rfl

/-- C18. Resolution is idempotent and ignores the byte fields it finds: for a token at
character `s` spanning `n ≥ 1` characters and tables that hold `begins[s]` and
`ends[s+n-1]`, the index fitting an `int`, a second `organize` with the same buffer and
tables returns the token the first one returned; a token that differs only in `begin`
and `length` resolves to that same token; and any token with the same start and count
resolves to the same `begin` and `length`, which are `begins[s]` and the `int`
difference `ends[s+n-1] - begins[s]`. -/
theorem organize_idempotent (outside : Outside) (m : Morph) (wraw : Ptr)
    (begins ends : List Int) (s n : Nat) (b e : Int)
    (hraw : wraw ≠ nullptr) (hs : m.wbegin = wraw + s)
    (hn : m.wlength = (n : Int)) (hn1 : 1 ≤ n)
    (hfit : ((s + n - 1 : Nat) : Int) ≤ INT_MAX)
    (hb : begins[s]? = some b) (he : ends[s + n - 1]? = some e) :
    ∃ m₁, m.organize outside wraw begins ends = .ok m₁
      ∧ m₁.organize outside wraw begins ends = .ok m₁
      ∧ m₁.begin = b ∧ m₁.length = wrap_int (e - b)
      ∧ (∀ b₀ l₀ : Int,
          ({ m with begin := b₀, length := l₀ } : Morph).organize outside wraw begins ends
            = .ok m₁)
      ∧ (∀ t : Morph, t.wbegin = m.wbegin → t.wlength = m.wlength →
          ∃ t₁, t.organize outside wraw begins ends = .ok t₁
            ∧ t₁.begin = m₁.begin ∧ t₁.length = m₁.length) := by
  refine ⟨_, organize_at_index outside m wraw begins ends s n b e hraw hs hn hn1 hfit hb he,
    ?_, rfl, rfl, ?_, ?_⟩
  · exact organize_at_index outside _ wraw begins ends s n b e hraw hs hn hn1 hfit hb he
  · intro b₀ l₀
    exact organize_at_index outside _ wraw begins ends s n b e hraw hs hn hn1 hfit hb he
  · intro t ht hl
    exact ⟨_, organize_at_index outside t wraw begins ends s n b e hraw (ht.trans hs)
      (hl.trans hn) hn1 hfit hb he, rfl, rfl⟩

/-- Witness of C18: the token "하다"/VV at character 1 with count 2, first unresolved,
then carrying other byte fields. -/
theorem organize_idempotent_witness :
    ∃ m₁, (Morph.mk (some "하다") 101 2 [] none (some "VV") (-1) (-1) 0).organize
        (fun _ _ => none) 100 [0, 3, 6] [3, 6, 9] = .ok m₁
      ∧ m₁.organize (fun _ _ => none) 100 [0, 3, 6] [3, 6, 9] = .ok m₁
      ∧ m₁.begin = 3 ∧ m₁.length = wrap_int (9 - 3)
      ∧ (∀ b₀ l₀ : Int,
          ({ Morph.mk (some "하다") 101 2 [] none (some "VV") (-1) (-1) 0 with
              begin := b₀, length := l₀ } : Morph).organize (fun _ _ => none) 100
            [0, 3, 6] [3, 6, 9] = .ok m₁)
      ∧ (∀ t : Morph,
          t.wbegin = (Morph.mk (some "하다") 101 2 [] none (some "VV") (-1) (-1) 0).wbegin →
          t.wlength = (Morph.mk (some "하다") 101 2 [] none (some "VV") (-1) (-1) 0).wlength →
          ∃ t₁, t.organize (fun _ _ => none) 100 [0, 3, 6] [3, 6, 9] = .ok t₁
            ∧ t₁.begin = m₁.begin ∧ t₁.length = m₁.length) :=
  organize_idempotent (fun _ _ => none)
    (Morph.mk (some "하다") 101 2 [] none (some "VV") (-1) (-1) 0)
    100 [0, 3, 6] [3, 6, 9] 1 2 3 9 (by decide) rfl rfl (by decide) (by decide) rfl rfl

end khaiii
